import Mathlib

/-!
Verification of the code-header-annotator scripts
(`annotate_code_headers.py`, `check_incomplete_headers.py`).

Text is modelled as `List Char`; a file is a list of lines as produced by
Python's `str.splitlines(keepends=True)` (each line keeps its terminator).
String literals enter the development via `String.data`.
-/

set_option maxRecDepth 10000

namespace Annot

/-- Whitespace as recognized by Python's `str.strip` / regex `\s`
(ASCII part, which is all the source data uses). -/
def pyWs (c : Char) : Bool :=
  c = ' ' || c = '\t' || c = '\n' || c = '\r' ||
  c = Char.ofNat 11 || c = Char.ofNat 12

/-- `s.lstrip()` on char lists. -/
def lstripC (s : List Char) : List Char := s.dropWhile pyWs

/-- `s.rstrip()` on char lists. -/
def rstripC (s : List Char) : List Char := (s.reverse.dropWhile pyWs).reverse

/-- `s.strip()` on char lists. -/
def stripC (s : List Char) : List Char := rstripC (lstripC s)

/-- Collapse consecutive spaces to one (helper for `re.sub(r"\s+", " ", s)`). -/
def squeezeSpaces : List Char → List Char
  | [] => []
  | [c] => [c]
  | a :: b :: rest =>
    if a = ' ' && b = ' ' then squeezeSpaces (b :: rest)
    else a :: squeezeSpaces (b :: rest)

/-- `re.sub(r"\s+", " ", s.strip())`: strip, then each whitespace run
becomes a single space. -/
def collapseWs (s : List Char) : List Char :=
  squeezeSpaces ((stripC s).map (fun c => if pyWs c then ' ' else c))

/-- `_truncate` from `annotate_code_headers.py`:
whitespace-collapse, then cut to `maxWidth` chars appending `…` on a cut. -/
def pyTruncate (s : List Char) (maxWidth : Nat) : List Char :=
  let s := collapseWs s
  if s.length ≤ maxWidth then s
  else if maxWidth ≤ 1 then s.take maxWidth
  else rstripC (s.take (maxWidth - 1)) ++ ['…']

/-- `needle` occurs as a contiguous run inside `hay`
(Python's `needle in hay`). -/
def hasSub (hay needle : List Char) : Bool :=
  match hay with
  | [] => needle.isEmpty
  | _ :: t => needle.isPrefixOf hay || hasSub t needle

/-- `hay.startswith(pre)` (argument order: subject first). -/
def strStarts (hay pre : List Char) : Bool := pre.isPrefixOf hay

/-- Word character for the regex class `\w` (ASCII part). -/
def wordChar (c : Char) : Bool := c.isAlphanum || c = '_'

/-- `lines[0].startswith("#!")`. -/
def shebangLine (l : List Char) : Bool := strStarts l "#!".data

/-- `lines[i].lstrip().startswith("<?xml")`. -/
def xmlDeclLine (l : List Char) : Bool := strStarts (lstripC l) "<?xml".data

/-- Suffix of the encoding-cookie regex: `\s*[-\w.]+` must follow. -/
def codingTailOk : List Char → Bool
  | [] => false
  | c :: rest =>
    if pyWs c then codingTailOk rest
    else wordChar c || c = '-' || c = '.'

/-- `coding[:=]\s*[-\w.]+` matches at the head of the char list. -/
def matchCodingAt (cs : List Char) : Bool :=
  match cs with
  | 'c' :: 'o' :: 'd' :: 'i' :: 'n' :: 'g' :: d :: rest =>
    (d = ':' || d = '=') && codingTailOk rest
  | _ => false

/-- Scan for `coding[:=]\s*[-\w.]+` at any position not past a newline
(`.` in the regex does not cross `\n`). -/
def scanCoding : List Char → Bool
  | [] => false
  | c :: rest =>
    if c = '\n' then false
    else matchCodingAt (c :: rest) || scanCoding rest

/-- `re.match(r"^#.*coding[:=]\s*[-\w.]+", line)` (PEP 263 cookie). -/
def pyCookieLine (l : List Char) : Bool :=
  match l with
  | c :: rest => c = '#' && scanCoding rest
  | [] => false

/-- Go build-directive line. -/
def goBuildLine (l : List Char) : Bool :=
  strStarts l "//go:build".data || strStarts l "// +build".data

/-- Rust inner-attribute line. -/
def rustAttrLine (l : List Char) : Bool := strStarts (lstripC l) "#![".data

/-- `line.strip() == ""`. -/
def blankLine (l : List Char) : Bool := (stripC l).isEmpty

/-- Shebang consumption step of `_split_prolog`. -/
def stepShebang : List (List Char) → List (List Char) × List (List Char)
  | [] => ([], [])
  | l :: rest => if shebangLine l then ([l], rest) else ([], l :: rest)

/-- XML-declaration consumption step of `_split_prolog`. -/
def stepXml : List (List Char) → List (List Char) × List (List Char)
  | [] => ([], [])
  | l :: rest => if xmlDeclLine l then ([l], rest) else ([], l :: rest)

/-- Python encoding-cookie consumption step of `_split_prolog`
(only for `.py` / `.pyi`). -/
def stepCookie (suffix : List Char) :
    List (List Char) → List (List Char) × List (List Char)
  | [] => ([], [])
  | l :: rest =>
    if (suffix = ".py".data || suffix = ".pyi".data) && pyCookieLine l then
      ([l], rest)
    else ([], l :: rest)

/-- Go build-tag consumption step of `_split_prolog`: consume the run of
directive lines, then a blank line if present, otherwise synthesize one. -/
def stepGoBuild (ls : List (List Char)) :
    List (List Char) × List (List Char) :=
  match ls with
  | [] => ([], [])
  | l :: _ =>
    if goBuildLine l then
      let tags := ls.takeWhile goBuildLine
      match ls.dropWhile goBuildLine with
      | [] => (tags ++ [['\n']], [])
      | b :: rest3 =>
        if blankLine b then (tags ++ [b], rest3)
        else (tags ++ [['\n']], b :: rest3)
    else ([], ls)

/-- Rust inner-attribute consumption step of `_split_prolog`: consume the
run of attribute lines, then a blank line if present. -/
def stepRustAttr (ls : List (List Char)) :
    List (List Char) × List (List Char) :=
  match ls with
  | [] => ([], [])
  | l :: _ =>
    if rustAttrLine l then
      let att := ls.takeWhile rustAttrLine
      match ls.dropWhile rustAttrLine with
      | [] => (att, [])
      | b :: rest3 =>
        if blankLine b then (att ++ [b], rest3)
        else (att, b :: rest3)
    else ([], ls)

/-- `_split_prolog` from `annotate_code_headers.py`. -/
def splitProlog (lines : List (List Char)) (suffix : List Char) :
    List (List Char) × List (List Char) :=
  if lines.isEmpty then ([], [])
  else
    let s0 := stepShebang lines
    let s1 := stepXml s0.2
    let s2 := stepCookie suffix s1.2
    let s3 := stepGoBuild s2.2
    let s4 := stepRustAttr s3.2
    (s0.1 ++ s1.1 ++ s2.1 ++ s3.1 ++ s4.1, s4.2)

/-- `CODEX_MARKER`. -/
def codexMarker : List Char := "@codex-header: v1".data

/-- `HEADER_LINES`. -/
def headerLinesN : Nat := 20

/-- `MAX_INHERIT_EDGES`. -/
def maxInheritEdges : Nat := 6

/-- `_split_existing_codex_header`: on success returns
`(header?, rest without header, found)`; raising `ValueError` is modelled
as `Except.error` carrying the message. -/
def splitCodexHeader (rest : List (List Char)) (path : List Char) :
    Except (List Char) (Option (List (List Char)) × List (List Char) × Bool) :=
  let scan := (rest.take 60).flatten
  if hasSub scan codexMarker = false then .ok (none, rest, false)
  else if rest.length < headerLinesN then
    .error ("found @codex-header: v1 but file is shorter than 20 lines".data)
  else if (rest.take headerLinesN).any (fun ln => hasSub ln codexMarker) then
    .ok (some (rest.take headerLinesN), rest.drop headerLinesN, true)
  else
    .error
      (("found @codex-header: v1 near top but header is not the first 20 lines; " ++
        "manually normalize the header in ").data ++ path)

/-- One comment style from `COMMENT_STYLES_BY_SUFFIX`
(`kind` is `"line"` or `"block"`). -/
structure CommentStyle where
  kind : List Char
  linePre : List Char := []
  blockStart : List Char := []
  blockLinePre : List Char := []
  blockEnd : List Char := []
deriving DecidableEq

/-- A hash-comment line style (`# `). -/
def lineStyle (pre : String) : CommentStyle :=
  { kind := "line".data, linePre := pre.data }

/-- The C-like block style. -/
def blockStyleC : CommentStyle :=
  { kind := "block".data, blockStart := "/*".data,
    blockLinePre := " * ".data, blockEnd := " */".data }

/-- The HTML block style. -/
def blockStyleHtml : CommentStyle :=
  { kind := "block".data, blockStart := "<!--".data,
    blockLinePre := "  ".data, blockEnd := "-->".data }

/-- `COMMENT_STYLES_BY_SUFFIX` as a lookup on the lowercased suffix. -/
def commentStylesBySuffix (suffix : List Char) : Option CommentStyle :=
  if suffix ∈ ([".py", ".pyi", ".sh", ".bash", ".zsh", ".fish", ".ps1",
      ".rb", ".yml", ".yaml"].map String.data) then some (lineStyle "# ")
  else if suffix ∈ ([".sql", ".lua"].map String.data) then
    some (lineStyle "-- ")
  else if suffix ∈ ([".c", ".h", ".cc", ".cpp", ".hpp", ".cs", ".java",
      ".kt", ".swift", ".js", ".jsx", ".ts", ".tsx", ".go", ".rs", ".php",
      ".css", ".scss", ".less"].map String.data) then some blockStyleC
  else if suffix ∈ ([".html", ".htm", ".xml", ".vue"].map String.data) then
    some blockStyleHtml
  else none

/-- `SKIP_SUFFIXES`. -/
def skipSuffixes : List (List Char) :=
  ([".json", ".lock", ".png", ".jpg", ".jpeg", ".gif", ".webp", ".ico",
    ".pdf", ".zip", ".gz", ".bz2", ".xz", ".7z", ".jar", ".class",
    ".wasm"].map String.data)

/-- `_detect_comment_style` (on the already lowercased suffix). -/
def detectCommentStyle (suffix : List Char) : Option CommentStyle :=
  if suffix ∈ skipSuffixes then none else commentStylesBySuffix suffix

/-- The field-count normalization of `_render_header_lines` for block
styles: drop middle fields beyond 20 keeping the tail, pad short lists
with blanks before the final field. -/
def blockNormalize (fields : List (List Char)) : List (List Char) :=
  let fields :=
    if headerLinesN < fields.length then
      fields.take (headerLinesN - 1) ++ fields.getLast?.toList
    else fields
  if fields.length < headerLinesN then
    fields.dropLast ++ List.replicate (headerLinesN - fields.length) [] ++
      fields.getLast?.toList
  else fields

/-- `_render_header_lines`. -/
def renderHeaderLines (style : CommentStyle) (fields : List (List Char))
    (maxWidth : Nat) : List (List Char) :=
  if style.kind = "block".data then
    match blockNormalize fields with
    | [] => []
    | f0 :: rest =>
      (style.blockStart ++ ' ' :: pyTruncate f0 maxWidth) ::
        rest.dropLast.map (fun f => style.blockLinePre ++ pyTruncate f maxWidth) ++
        [style.blockLinePre ++ pyTruncate ((f0 :: rest).getLastD []) maxWidth ++
          ' ' :: style.blockEnd]
  else
    let rendered := fields.map fun f => style.linePre ++ pyTruncate f maxWidth
    let rendered :=
      if headerLinesN < rendered.length then rendered.take headerLinesN
      else rendered
    rendered ++ List.replicate (headerLinesN - rendered.length) (rstripC style.linePre)

/-- `_HEADER_FIELD_PREFIXES`. -/
def headerFieldLabels : List (List Char) :=
  (["Path:", "Purpose:", "Key types:", "Inheritance:", "Key funcs:",
    "Entrypoints:", "Public API:", "Inputs/Outputs:", "Core flow:",
    "Dependencies:", "Error handling:", "Config/env:", "Side effects:",
    "Performance:", "Security:", "Tests:", "Known issues:", "Index:",
    "Last update:"].map String.data)

/-- Strip all trailing copies of one character (`s.rstrip(c)`). -/
def rstripChar (s : List Char) (c : Char) : List Char :=
  (s.reverse.dropWhile (fun x => x = c)).reverse

/-- Drop the last `n` characters. -/
def dropEnd (s : List Char) (n : Nat) : List Char := s.take (s.length - n)

/-- `_RE_HEADER_SUFFIX.sub("", s)`: remove a trailing
`\s*(\*/|-->)\s*` if present. -/
def stripTrailingClose (s : List Char) : List Char :=
  let t := rstripC s
  if "*/".data.isSuffixOf t then rstripC (dropEnd t 2)
  else if "-->".data.isSuffixOf t then rstripC (dropEnd t 3)
  else s

/-- `_RE_HEADER_PREFIX.sub("", s)`: remove the leading
`\s*(/\*+|<!--)?\s*(\*+\s*)?(#|//|--)?\s*`. -/
def stripLeadOpen (s : List Char) : List Char :=
  let s := s.dropWhile pyWs
  let s :=
    if strStarts s "/*".data then (s.drop 1).dropWhile (fun c => c = '*')
    else if strStarts s "<!--".data then s.drop 4
    else s
  let s := s.dropWhile pyWs
  let s :=
    match s with
    | '*' :: _ => (s.dropWhile (fun c => c = '*')).dropWhile pyWs
    | _ => s
  let s :=
    if strStarts s "#".data then s.drop 1
    else if strStarts s "//".data then s.drop 2
    else if strStarts s "--".data then s.drop 2
    else s
  s.dropWhile pyWs

/-- `_strip_header_comment_syntax`. -/
def stripHeaderCommentSyntax (line : List Char) : List Char :=
  let s := rstripChar (rstripChar line '\n') '\r'
  stripC (stripLeadOpen (stripTrailingClose s))

/-- First matching field label of a cleaned line, with its value. -/
def findLabel (clean : List Char) : Option (List Char × List Char) :=
  headerFieldLabels.findSome? fun lbl =>
    if strStarts clean lbl then
      some (dropEnd lbl 1, stripC (clean.drop lbl.length))
    else none

/-- `_parse_existing_header_fields`; the returned association list is read
through `fieldsGet`, where the most recent assignment wins. -/
def parseExistingHeaderFields (headerLines : List (List Char)) :
    List (List Char × List Char) :=
  headerLines.foldl
    (fun acc ln =>
      match findLabel (stripHeaderCommentSyntax ln) with
      | some kv => kv :: acc
      | none => acc)
    []

/-- `fields.get(k)` over the association list. -/
def fieldsGet (d : List (List Char × List Char)) (k : List Char) :
    Option (List Char) :=
  (d.find? (fun p => p.1 = k)).map (fun p => p.2)

/-- `_is_placeholder`. -/
def isPlaceholder (v : Option (List Char)) : Bool :=
  match v with
  | none => true
  | some value =>
    let v := stripC value
    if v.isEmpty then true
    else if v = "TODO".data then true
    else if strStarts v "TODO ".data then true
    else if strStarts v "TODO:".data then true
    else if strStarts v "TODO;".data then true
    else false

/-- Count non-overlapping occurrences (`str.count`); `skip` suppresses
positions still covered by a previous match. -/
def countSubGo (needle : List Char) : List Char → Nat → Nat
  | [], _ => 0
  | h :: t, 0 =>
    if needle.isPrefixOf (h :: t) then
      1 + countSubGo needle t (needle.length - 1)
    else countSubGo needle t 0
  | _ :: t, k + 1 => countSubGo needle t k

/-- Non-overlapping occurrence count of `needle` (`hay.count(needle)`),
for a nonempty needle. -/
def countSub (hay needle : List Char) : Nat := countSubGo needle hay 0

/-- Index of the first occurrence of `needle` in `hay`, if any. -/
def findSubPos (hay needle : List Char) : Option Nat :=
  match hay with
  | [] => if needle.isEmpty then some 0 else none
  | _ :: t =>
    if needle.isPrefixOf hay then some 0
    else (findSubPos t needle).map (fun n => n + 1)

/-- `s.split(q, 2)[1]` for a nonempty separator occurring in `s`: the text
between the first and second occurrence, or everything after the first
occurrence when there is no second one. -/
def splitPart1 (s q : List Char) : List Char :=
  match findSubPos s q with
  | none => []
  | some i =>
    let rest := s.drop (i + q.length)
    match findSubPos rest q with
    | none => rest
    | some j => rest.take j

/-- Closing scan of `_peek_py_module_docstring`: collect lines until one
contains the quote, then join with newlines and truncate to 300. -/
def peekCollect (q : List Char) (acc : List (List Char)) :
    List (List Char) → Option (List Char)
  | [] => none
  | ln :: t =>
    if hasSub ln q then some (pyTruncate (List.intercalate ['\n'] acc) 300)
    else peekCollect q (acc ++ [rstripChar ln '\n']) t

/-- `_peek_py_module_docstring` (runs on content after the prolog). -/
def peekPyModuleDocstring (lines : List (List Char)) : Option (List Char) :=
  match lines.dropWhile blankLine with
  | [] => none
  | first :: tail =>
    let opener := lstripC first
    let q : Option (List Char) :=
      if strStarts opener ("\"\"\"".data) then some ("\"\"\"".data)
      else if strStarts opener "'''".data then some ("'''".data)
      else none
    match q with
    | none => none
    | some quote =>
      if 2 ≤ countSub opener quote ∧ ¬stripC opener = quote then
        some (pyTruncate (splitPart1 opener quote) 300)
      else
        peekCollect quote [] (tail.take 1999)

/-- Python `a or b` on strings: `b` when `a` is empty. -/
def orElseNE (a b : List Char) : List Char := if a.isEmpty then b else a

/-- `", ".join(xs)`. -/
def joinCommaSp (xs : List (List Char)) : List Char :=
  List.intercalate (", ".data) xs

/-- The `last_update` value chosen by `annotate_file` before any re-bump. -/
def reconcileLastUpdate (existingFields : List (List Char × List Char))
    (refresh : Bool) (today : List Char) : List Char :=
  if refresh then today
  else
    let v := fieldsGet existingFields ("Last update".data)
    if isPlaceholder v then today else v.getD []

/-- The `header_fields` list built by `annotate_file` (field reconciliation):
20 field strings, in wire order. -/
def reconcileHeaderFields (relpath : List Char)
    (existingFields : List (List Char × List Char)) (docHint : List Char)
    (purpose indexHint : List Char) (refresh : Bool) (today : List Char)
    (types funcs entrypoints inheritance : List (List Char)) :
    List (List Char) :=
  let finalPurpose :=
    if refresh then orElseNE purpose (orElseNE docHint ("TODO".data))
    else if purpose.isEmpty = false then purpose
    else
      let ep := fieldsGet existingFields ("Purpose".data)
      if isPlaceholder ep = false then ep.getD []
      else orElseNE docHint ("TODO".data)
  let keepOrTodo := fun (k : List Char) =>
    if refresh then "TODO".data
    else
      match fieldsGet existingFields k with
      | some v => if isPlaceholder (some v) = false then v else "TODO".data
      | none => "TODO".data
  let indexValue :=
    if refresh then orElseNE indexHint ("TODO".data)
    else if indexHint.isEmpty = false then indexHint
    else
      let ei := fieldsGet existingFields ("Index".data)
      if isPlaceholder ei = false then ei.getD [] else "TODO".data
  let lastUpdate := reconcileLastUpdate existingFields refresh today
  [ "@codex-header: v1 | 20 lines | keep updated".data,
    "Path: ".data ++ relpath,
    "Purpose: ".data ++ orElseNE finalPurpose ("TODO".data),
    "Key types: ".data ++
      (if types.isEmpty then "TODO".data else joinCommaSp types),
    "Inheritance: ".data ++
      (if inheritance.isEmpty then "TODO".data else joinCommaSp inheritance),
    "Key funcs: ".data ++
      (if funcs.isEmpty then "TODO".data else joinCommaSp funcs),
    "Entrypoints: ".data ++
      (if entrypoints.isEmpty then "TODO".data else joinCommaSp entrypoints),
    "Public API: ".data ++ keepOrTodo ("Public API".data),
    "Inputs/Outputs: ".data ++ keepOrTodo ("Inputs/Outputs".data),
    "Core flow: ".data ++ keepOrTodo ("Core flow".data),
    "Dependencies: ".data ++ keepOrTodo ("Dependencies".data),
    "Error handling: ".data ++ keepOrTodo ("Error handling".data),
    "Config/env: ".data ++ keepOrTodo ("Config/env".data),
    "Side effects: ".data ++ keepOrTodo ("Side effects".data),
    "Performance: ".data ++ keepOrTodo ("Performance".data),
    "Security: ".data ++ keepOrTodo ("Security".data),
    "Tests: ".data ++ keepOrTodo ("Tests".data),
    "Known issues: ".data ++ keepOrTodo ("Known issues".data),
    "Index: ".data ++ indexValue,
    "Last update: ".data ++ lastUpdate ]

/-- Backtracking star over a character class, CPS style: `bkStarAux cs k n`
tries consuming `n` characters first, then fewer (greedy order). -/
def bkStarAux {R : Type} (cs : List Char) (k : List Char → Option R) :
    Nat → Option R
  | 0 => k cs
  | n + 1 =>
    match k (cs.drop (n + 1)) with
    | some r => some r
    | none => bkStarAux cs k n

/-- Regex `p*` with greedy matching and backtracking. -/
def bkStar {R : Type} (p : Char → Bool) (cs : List Char)
    (k : List Char → Option R) : Option R :=
  bkStarAux cs k ((cs.takeWhile p).length)

/-- Regex `p+` with greedy matching and backtracking. -/
def bkPlus {R : Type} (p : Char → Bool) (cs : List Char)
    (k : List Char → Option R) : Option R :=
  match cs with
  | [] => none
  | c :: t => if p c then bkStar p t k else none

/-- Like `bkStar` but passes the consumed characters to the continuation. -/
def capStar {R : Type} (p : Char → Bool) (cs : List Char)
    (k : List Char → List Char → Option R) : Option R :=
  bkStarAux cs (fun rest => k (cs.take (cs.length - rest.length)) rest)
    ((cs.takeWhile p).length)

/-- Like `bkPlus` but passes the consumed characters to the continuation. -/
def capPlus {R : Type} (p : Char → Bool) (cs : List Char)
    (k : List Char → List Char → Option R) : Option R :=
  match cs with
  | [] => none
  | c :: t =>
    if p c then capStar p t (fun cap rest => k (c :: cap) rest) else none

/-- Literal token. -/
def litP {R : Type} (s : List Char) (cs : List Char)
    (k : List Char → Option R) : Option R :=
  if strStarts cs s then k (cs.drop s.length) else none

/-- Ordered alternation over literal tokens. -/
def altLits {R : Type} : List (List Char) → List Char →
    (List Char → Option R) → Option R
  | [], _, _ => none
  | kw :: rest, cs, k =>
    match litP kw cs k with
    | some r => some r
    | none => altLits rest cs k

/-- Ordered alternation over literal tokens, passing the matched token. -/
def altLitsCap {R : Type} : List (List Char) → List Char →
    (List Char → List Char → Option R) → Option R
  | [], _, _ => none
  | kw :: rest, cs, k =>
    match litP kw cs (fun cs2 => k kw cs2) with
    | some r => some r
    | none => altLitsCap rest cs k

/-- Optional keyword group `(?:kw\s+)?` with backtracking. -/
def optKw {R : Type} (kw : List Char) (cs : List Char)
    (k : List Char → Option R) : Option R :=
  match litP kw cs (fun cs2 => bkPlus pyWs cs2 k) with
  | some r => some r
  | none => k cs

/-- Optional keyword alternation `(?:a|b|...)?\s*` — the keywords are
followed by `\s*` outside the group, as in the Java/C# patterns. -/
def optAltKwWs {R : Type} (kws : List (List Char)) (cs : List Char)
    (k : List Char → Option R) : Option R :=
  match altLits kws cs (fun cs2 => bkStar pyWs cs2 k) with
  | some r => some r
  | none => bkStar pyWs cs k

/-- Capture `[A-Za-z_]\w*` (greedy, backtracking). -/
def capIdent {R : Type} (cs : List Char)
    (k : List Char → List Char → Option R) : Option R :=
  match cs with
  | [] => none
  | c :: t =>
    if c.isAlpha || c = '_' then
      capStar wordChar t (fun cap rest => k (c :: cap) rest)
    else none

/-- First char of a JS identifier `[A-Za-z_$]`. -/
def jsIdentFirst (c : Char) : Bool := c.isAlpha || c = '_' || c = '$'

/-- Later char of a JS identifier `[\w$]`. -/
def jsIdentCh (c : Char) : Bool := wordChar c || c = '$'

/-- Capture `[A-Za-z_$][\w$]*` (greedy, backtracking). -/
def capJsIdent {R : Type} (cs : List Char)
    (k : List Char → List Char → Option R) : Option R :=
  match cs with
  | [] => none
  | c :: t =>
    if jsIdentFirst c then
      capStar jsIdentCh t (fun cap rest => k (c :: cap) rest)
    else none

/-- `\b` after a nonempty capture: exactly one of (last captured char,
next input char) is a word character. -/
def wordBoundaryAfter (cap rest : List Char) : Bool :=
  let a := wordChar (cap.getLastD ' ')
  let b := match rest with
    | [] => false
    | d :: _ => wordChar d
  a != b

/-- Optional literal (`\(?`-style) with backtracking. -/
def optLit {R : Type} (s : List Char) (cs : List Char)
    (k : List Char → Option R) : Option R :=
  match litP s cs k with
  | some r => some r
  | none => k cs

/-- The `{` character (written via its code point). -/
def openBraceCh : Char := Char.ofNat 123

/-- `_RE_PY_DEF`: `^\s*def\s+([A-Za-z_]\w*)\s*\(`. -/
def pyDefName (line : List Char) : Option (List Char) :=
  bkStar pyWs line fun cs =>
  litP "def".data cs fun cs =>
  bkPlus pyWs cs fun cs =>
  capIdent cs fun name cs =>
  bkStar pyWs cs fun cs =>
  match cs with
  | '(' :: _ => some name
  | _ => none

/-- `_RE_PY_CLASS`: `^\s*class\s+([A-Za-z_]\w*)\s*[\(:]`. -/
def pyClassName (line : List Char) : Option (List Char) :=
  bkStar pyWs line fun cs =>
  litP "class".data cs fun cs =>
  bkPlus pyWs cs fun cs =>
  capIdent cs fun name cs =>
  bkStar pyWs cs fun cs =>
  match cs with
  | '(' :: _ => some name
  | ':' :: _ => some name
  | _ => none

/-- `_RE_PY_INHERIT`: `^\s*class\s+([A-Za-z_]\w*)\s*\(([^)]*)\)\s*:`,
returning (child, raw base clause). -/
def pyInheritMatch (line : List Char) : Option (List Char × List Char) :=
  bkStar pyWs line fun cs =>
  litP "class".data cs fun cs =>
  bkPlus pyWs cs fun cs =>
  capIdent cs fun name cs =>
  bkStar pyWs cs fun cs =>
  litP "(".data cs fun cs =>
  capStar (fun c => c != ')') cs fun inner cs =>
  litP ")".data cs fun cs =>
  bkStar pyWs cs fun cs =>
  litP ":".data cs fun _ =>
  some (name, inner)

/-- `_RE_JS_CLASS` (three ordered alternatives). -/
def jsClassName (line : List Char) : Option (List Char) :=
  let alt1 :=
    bkStar pyWs line fun cs =>
    litP "export".data cs fun cs =>
    bkPlus pyWs cs fun cs =>
    litP "default".data cs fun cs =>
    bkPlus pyWs cs fun cs =>
    litP "class".data cs fun cs =>
    bkPlus pyWs cs fun cs =>
    capJsIdent cs fun n rest =>
    if wordBoundaryAfter n rest then some n else none
  let alt2 :=
    bkStar pyWs line fun cs =>
    litP "export".data cs fun cs =>
    bkPlus pyWs cs fun cs =>
    litP "class".data cs fun cs =>
    bkPlus pyWs cs fun cs =>
    capJsIdent cs fun n rest =>
    if wordBoundaryAfter n rest then some n else none
  let alt3 :=
    bkStar pyWs line fun cs =>
    litP "class".data cs fun cs =>
    bkPlus pyWs cs fun cs =>
    capJsIdent cs fun n rest =>
    if wordBoundaryAfter n rest then some n else none
  match alt1 with
  | some r => some r
  | none =>
    match alt2 with
    | some r => some r
    | none => alt3

/-- `_RE_TS_CLASS`. -/
def tsClassName (line : List Char) : Option (List Char) :=
  bkStar pyWs line fun cs =>
  optKw "export".data cs fun cs =>
  optKw "default".data cs fun cs =>
  optKw "abstract".data cs fun cs =>
  litP "class".data cs fun cs =>
  bkPlus pyWs cs fun cs =>
  capJsIdent cs fun n rest =>
  if wordBoundaryAfter n rest then some n else none

/-- `_RE_TS_INTERFACE`. -/
def tsInterfaceName (line : List Char) : Option (List Char) :=
  bkStar pyWs line fun cs =>
  optKw "export".data cs fun cs =>
  litP "interface".data cs fun cs =>
  bkPlus pyWs cs fun cs =>
  capJsIdent cs fun n rest =>
  if wordBoundaryAfter n rest then some n else none

/-- `_RE_TS_ENUM`. -/
def tsEnumName (line : List Char) : Option (List Char) :=
  bkStar pyWs line fun cs =>
  optKw "export".data cs fun cs =>
  litP "enum".data cs fun cs =>
  bkPlus pyWs cs fun cs =>
  capJsIdent cs fun n rest =>
  if wordBoundaryAfter n rest then some n else none

/-- `_RE_TS_TYPE_ALIAS`. -/
def tsTypeAliasName (line : List Char) : Option (List Char) :=
  bkStar pyWs line fun cs =>
  optKw "export".data cs fun cs =>
  litP "type".data cs fun cs =>
  bkPlus pyWs cs fun cs =>
  capJsIdent cs fun n rest =>
  if wordBoundaryAfter n rest then some n else none

/-- Shared tail `\s+implements\s+([^{]+)` of the implements patterns. -/
def implementsTail (n : List Char) (cs : List Char) :
    Option (List Char × List Char) :=
  bkPlus pyWs cs fun cs =>
  litP "implements".data cs fun cs =>
  bkPlus pyWs cs fun cs =>
  capPlus (fun c => c != openBraceCh) cs fun raw _ =>
  some (n, raw)

/-- `_RE_TS_IMPLEMENTS`, returning (child, raw interface clause). -/
def tsImplementsMatch (line : List Char) : Option (List Char × List Char) :=
  bkStar pyWs line fun cs =>
  optKw "export".data cs fun cs =>
  optKw "default".data cs fun cs =>
  optKw "abstract".data cs fun cs =>
  litP "class".data cs fun cs =>
  bkPlus pyWs cs fun cs =>
  capJsIdent cs fun n cs =>
  if wordBoundaryAfter n cs = false then none
  else
    match (bkPlus pyWs cs fun cs2 =>
           litP "extends".data cs2 fun cs2 =>
           bkPlus pyWs cs2 fun cs2 =>
           match cs2 with
           | c :: t =>
             if jsIdentFirst c then
               bkStar jsIdentCh t (fun cs3 => implementsTail n cs3)
             else none
           | [] => none) with
    | some r => some r
    | none => implementsTail n cs

/-- `_RE_JS_INHERIT`, returning (child, parent). -/
def jsInheritMatch (line : List Char) : Option (List Char × List Char) :=
  bkStar pyWs line fun cs =>
  optKw "export".data cs fun cs =>
  optKw "default".data cs fun cs =>
  optKw "abstract".data cs fun cs =>
  litP "class".data cs fun cs =>
  bkPlus pyWs cs fun cs =>
  capJsIdent cs fun n cs =>
  bkPlus pyWs cs fun cs =>
  litP "extends".data cs fun cs =>
  bkPlus pyWs cs fun cs =>
  capJsIdent cs fun p _ =>
  some (n, p)

/-- `_RE_JS_FN` (four ordered alternatives). -/
def jsFnName (line : List Char) : Option (List Char) :=
  let fnAlt := fun (pre : List (List Char)) (eq : Bool) =>
    bkStar pyWs line fun cs =>
    (pre.foldr
      (fun kw (k : List Char → Option (List Char)) => fun cs =>
        litP kw cs fun cs => bkPlus pyWs cs k)
      (fun cs =>
        capJsIdent cs fun n cs =>
        bkStar pyWs cs fun cs =>
        if eq then
          litP "=".data cs fun cs =>
          bkStar pyWs cs fun cs =>
          match cs with
          | '(' :: _ => some n
          | _ => none
        else
          match cs with
          | '(' :: _ => some n
          | _ => none)) cs
  match fnAlt ["export".data, "function".data] false with
  | some r => some r
  | none =>
    match fnAlt ["function".data] false with
    | some r => some r
    | none =>
      match fnAlt ["export".data, "const".data] true with
      | some r => some r
      | none => fnAlt ["const".data] true

/-- Receiver characters `[A-Za-z_*\w]` of `_RE_GO_FUNC`. -/
def goRecvCh (c : Char) : Bool := wordChar c || c = '*'

/-- `_RE_GO_TYPE`, returning the type name (group 1). -/
def goTypeName (line : List Char) : Option (List Char) :=
  bkStar pyWs line fun cs =>
  litP "type".data cs fun cs =>
  bkPlus pyWs cs fun cs =>
  capIdent cs fun n cs =>
  bkPlus pyWs cs fun cs =>
  altLitsCap ["struct".data, "interface".data] cs fun kw rest =>
  if wordBoundaryAfter kw rest then some n else none

/-- `_RE_GO_FUNC`. -/
def goFuncName (line : List Char) : Option (List Char) :=
  bkStar pyWs line fun cs =>
  litP "func".data cs fun cs =>
  bkPlus pyWs cs fun cs =>
  optLit "(".data cs fun cs =>
  bkStar goRecvCh cs fun cs =>
  optLit ")".data cs fun cs =>
  bkStar pyWs cs fun cs =>
  capIdent cs fun n cs =>
  bkStar pyWs cs fun cs =>
  match cs with
  | '(' :: _ => some n
  | _ => none

/-- `_RE_RS_ITEM`, returning the item name (group 2). -/
def rsItemName (line : List Char) : Option (List Char) :=
  bkStar pyWs line fun cs =>
  optKw "pub".data cs fun cs =>
  altLits ["struct".data, "enum".data, "trait".data] cs fun cs =>
  bkPlus pyWs cs fun cs =>
  capIdent cs fun n rest =>
  if wordBoundaryAfter n rest then some n else none

/-- `_RE_RS_FN`. -/
def rsFnName (line : List Char) : Option (List Char) :=
  bkStar pyWs line fun cs =>
  optKw "pub".data cs fun cs =>
  litP "fn".data cs fun cs =>
  bkPlus pyWs cs fun cs =>
  capIdent cs fun n cs =>
  bkStar pyWs cs fun cs =>
  match cs with
  | '(' :: _ => some n
  | _ => none

/-- Optional generic clause `(?:<[^>]+>\s+)?` of `_RE_RS_IMPL_FOR`. -/
def optRsGeneric {R : Type} (cs : List Char)
    (k : List Char → Option R) : Option R :=
  match litP "<".data cs (fun cs2 =>
    capPlus (fun c => c != '>') cs2 (fun _ cs3 =>
      litP ">".data cs3 (fun cs4 => bkPlus pyWs cs4 k))) with
  | some r => some r
  | none => k cs

/-- `_RE_RS_IMPL_FOR`, returning (trait, implementing type). -/
def rsImplForMatch (line : List Char) : Option (List Char × List Char) :=
  bkStar pyWs line fun cs =>
  litP "impl".data cs fun cs =>
  bkPlus pyWs cs fun cs =>
  optRsGeneric cs fun cs =>
  capIdent cs fun tr cs =>
  bkPlus pyWs cs fun cs =>
  litP "for".data cs fun cs =>
  bkPlus pyWs cs fun cs =>
  capIdent cs fun tgt rest =>
  if wordBoundaryAfter tgt rest then some (tr, tgt) else none

/-- `_RE_JAVA_TYPE`, returning (kind keyword, name). -/
def javaTypeMatch (line : List Char) : Option (List Char × List Char) :=
  bkStar pyWs line fun cs =>
  optAltKwWs ["public".data, "protected".data, "private".data] cs fun cs =>
  optAltKwWs ["abstract".data, "final".data] cs fun cs =>
  altLitsCap ["class".data, "interface".data, "enum".data] cs fun kw cs =>
  bkPlus pyWs cs fun cs =>
  capIdent cs fun n rest =>
  if wordBoundaryAfter n rest then some (kw, n) else none

/-- `_RE_JAVA_INHERIT`, returning (child, parent). -/
def javaInheritMatch (line : List Char) : Option (List Char × List Char) :=
  bkStar pyWs line fun cs =>
  optAltKwWs ["public".data, "protected".data, "private".data] cs fun cs =>
  optAltKwWs ["abstract".data, "final".data] cs fun cs =>
  litP "class".data cs fun cs =>
  bkPlus pyWs cs fun cs =>
  capIdent cs fun n cs =>
  bkPlus pyWs cs fun cs =>
  litP "extends".data cs fun cs =>
  bkPlus pyWs cs fun cs =>
  capIdent cs fun p rest =>
  if wordBoundaryAfter p rest then some (n, p) else none

/-- `_RE_JAVA_IMPLEMENTS`, returning (child, raw interface clause). -/
def javaImplementsMatch (line : List Char) : Option (List Char × List Char) :=
  bkStar pyWs line fun cs =>
  optAltKwWs ["public".data, "protected".data, "private".data] cs fun cs =>
  optAltKwWs ["abstract".data, "final".data] cs fun cs =>
  litP "class".data cs fun cs =>
  bkPlus pyWs cs fun cs =>
  capIdent cs fun n cs =>
  if wordBoundaryAfter n cs = false then none
  else
    match (bkPlus pyWs cs fun cs2 =>
           litP "extends".data cs2 fun cs2 =>
           bkPlus pyWs cs2 fun cs2 =>
           match cs2 with
           | c :: t =>
             if c.isAlpha || c = '_' then
               bkStar wordChar t (fun cs3 => implementsTail n cs3)
             else none
           | [] => none) with
    | some r => some r
    | none => implementsTail n cs

/-- `_RE_JAVA_INTERFACE_EXTENDS`, returning (child, raw parent clause). -/
def javaInterfaceExtendsMatch (line : List Char) :
    Option (List Char × List Char) :=
  bkStar pyWs line fun cs =>
  optAltKwWs ["public".data, "protected".data, "private".data] cs fun cs =>
  litP "interface".data cs fun cs =>
  bkPlus pyWs cs fun cs =>
  capIdent cs fun n cs =>
  bkPlus pyWs cs fun cs =>
  litP "extends".data cs fun cs =>
  bkPlus pyWs cs fun cs =>
  capPlus (fun c => c != openBraceCh) cs fun raw _ =>
  some (n, raw)

/-- `_RE_CS_SUPERTYPES`, returning (kind, child, raw clause). -/
def csSupertypesMatch (line : List Char) :
    Option (List Char × List Char × List Char) :=
  bkStar pyWs line fun cs =>
  optAltKwWs ["public".data, "protected".data, "private".data,
    "internal".data] cs fun cs =>
  optAltKwWs ["abstract".data, "sealed".data, "static".data,
    "partial".data] cs fun cs =>
  altLitsCap ["class".data, "interface".data, "struct".data] cs fun kw cs =>
  bkPlus pyWs cs fun cs =>
  capIdent cs fun n cs =>
  bkStar pyWs cs fun cs =>
  litP ":".data cs fun cs =>
  bkStar pyWs cs fun cs =>
  capPlus (fun c => c != openBraceCh) cs fun raw _ =>
  some (kw, n, raw)

/-- `_RE_KT_SUPERTYPES`, returning (kind, child, raw clause). -/
def ktSupertypesMatch (line : List Char) :
    Option (List Char × List Char × List Char) :=
  bkStar pyWs line fun cs =>
  optAltKwWs ["public".data, "protected".data, "private".data,
    "internal".data] cs fun cs =>
  optAltKwWs ["open".data, "abstract".data, "sealed".data,
    "data".data] cs fun cs =>
  altLitsCap ["class".data, "interface".data] cs fun kw cs =>
  bkPlus pyWs cs fun cs =>
  capIdent cs fun n cs =>
  bkStar pyWs cs fun cs =>
  litP ":".data cs fun cs =>
  bkStar pyWs cs fun cs =>
  capPlus (fun c => c != openBraceCh) cs fun raw _ =>
  some (kw, n, raw)

/-- The inline C# type-declaration pattern of `_extract_symbols`. -/
def csTypeName (line : List Char) : Option (List Char) :=
  bkStar pyWs line fun cs =>
  optAltKwWs ["public".data, "protected".data, "private".data,
    "internal".data] cs fun cs =>
  optAltKwWs ["abstract".data, "sealed".data, "static".data,
    "partial".data] cs fun cs =>
  altLits ["class".data, "interface".data, "struct".data, "enum".data]
    cs fun cs =>
  bkPlus pyWs cs fun cs =>
  capIdent cs fun n rest =>
  if wordBoundaryAfter n rest then some n else none

/-- Body characters `[\w\s\*]` of `_RE_C_LIKE_FN`. -/
def cBodyCh (c : Char) : Bool := wordChar c || pyWs c || c = '*'

/-- `_RE_C_LIKE_FN`. -/
def cLikeFnName (line : List Char) : Option (List Char) :=
  bkStar pyWs line fun cs =>
  match cs with
  | [] => none
  | c :: t =>
    if c.isAlpha || c = '_' then
      bkPlus cBodyCh t fun cs =>
      bkPlus pyWs cs fun cs =>
      capIdent cs fun n cs =>
      bkStar pyWs cs fun cs =>
      litP "(".data cs fun cs =>
      bkStar (fun c => c != ';') cs fun cs =>
      litP ")".data cs fun cs =>
      bkStar pyWs cs fun cs =>
      match cs with
      | d :: _ => if d = openBraceCh then some n else none
      | _ => none
    else none

/-- Decimal digits of a line number. -/
def natDigits (n : Nat) : List Char := Nat.toDigits 10 n

/-- Symbol kinds recorded by `_extract_symbols`. -/
inductive SymKind where
  | ty
  | fn
  | entry
deriving DecidableEq

/-- Per-line classification of `_extract_symbols` (first match wins,
one symbol per line; over-long lines are treated as data). -/
def classifyLine (suffix : List Char) (line : List Char) :
    Option (SymKind × List Char) :=
  if 5000 < line.length then none
  else if suffix = ".py".data ∨ suffix = ".pyi".data then
    match pyClassName line with
    | some n => some (.ty, n)
    | none =>
      match pyDefName line with
      | some n => some (.fn, n)
      | none =>
        if strStarts line ("if __name__".data) && hasSub line ("__main__".data)
        then some (.entry, "__main__".data)
        else none
  else if suffix ∈ ([".js", ".jsx", ".ts", ".tsx"].map String.data) then
    let tyMatch :=
      if suffix = ".ts".data ∨ suffix = ".tsx".data then
        match tsClassName line with
        | some n => some n
        | none =>
          match tsInterfaceName line with
          | some n => some n
          | none =>
            match tsEnumName line with
            | some n => some n
            | none => tsTypeAliasName line
      else jsClassName line
    match tyMatch with
    | some n => some (.ty, n)
    | none =>
      match jsFnName line with
      | some n => some (.fn, n)
      | none => none
  else if suffix = ".go".data then
    match goTypeName line with
    | some n => some (.ty, n)
    | none =>
      match goFuncName line with
      | some n => some (.fn, n)
      | none => none
  else if suffix = ".rs".data then
    match rsItemName line with
    | some n => some (.ty, n)
    | none =>
      match rsFnName line with
      | some n => some (.fn, n)
      | none => none
  else if suffix = ".java".data ∨ suffix = ".kt".data then
    match javaTypeMatch line with
    | some kn => some (.ty, kn.2)
    | none => none
  else if suffix = ".cs".data then
    match csTypeName line with
    | some n => some (.ty, n)
    | none => none
  else
    match cLikeFnName line with
    | some n => some (.fn, n)
    | none => none

/-- Scan the body, producing `(kind, name, final line number)` in order. -/
def collectSyms (suffix : List Char) (body : List (List Char)) (off : Nat) :
    List (SymKind × List Char × Nat) :=
  (List.enumFrom 1 body).filterMap fun p =>
    (classifyLine suffix p.2).map fun s => (s.1, s.2, off + p.1)

/-- The `fmt` closure of `_extract_symbols`: dedupe by name (first wins),
render `Name@L<line>`, stop at `limit`. -/
def fmtRefs (limit : Nat) (seen out : List (List Char)) :
    List (List Char × Nat) → List (List Char)
  | [] => out
  | (n, ln) :: t =>
    if n ∈ seen then fmtRefs limit seen out t
    else
      let out2 := out ++ [n ++ "@L".data ++ natDigits ln]
      if limit ≤ out2.length then out2
      else fmtRefs limit (n :: seen) out2 t

/-- `_extract_symbols`: `(types, funcs, entrypoints)` as `Name@L..` strings. -/
def extractSymbols (suffix : List Char) (body : List (List Char)) (off : Nat) :
    List (List Char) × List (List Char) × List (List Char) :=
  let syms := collectSyms suffix body off
  (fmtRefs 4 [] []
      (syms.filterMap fun s => if s.1 = .ty then some (s.2.1, s.2.2) else none),
   fmtRefs 6 [] []
      (syms.filterMap fun s => if s.1 = .fn then some (s.2.1, s.2.2) else none),
   fmtRefs 2 [] []
      (syms.filterMap fun s => if s.1 = .entry then some (s.2.1, s.2.2) else none))

/-- The first pass of `_extract_inheritance`: per-line type declaration. -/
def typeNameOfLine (suffix : List Char) (line : List Char) :
    Option (List Char) :=
  if suffix = ".py".data ∨ suffix = ".pyi".data then pyClassName line
  else if suffix ∈ ([".js", ".jsx", ".ts", ".tsx"].map String.data) then
    if suffix = ".ts".data ∨ suffix = ".tsx".data then
      match tsClassName line with
      | some n => some n
      | none =>
        match tsInterfaceName line with
        | some n => some n
        | none =>
          match tsEnumName line with
          | some n => some n
          | none => tsTypeAliasName line
    else jsClassName line
  else if suffix = ".java".data ∨ suffix = ".kt".data then
    (javaTypeMatch line).map (fun kn => kn.2)
  else if suffix = ".cs".data then csTypeName line
  else none

/-- `type_line_by_name` (a later declaration of the same name wins). -/
def typeLineMap (suffix : List Char) (body : List (List Char)) (off : Nat) :
    List (List Char × Nat) :=
  (List.enumFrom 1 body).foldl
    (fun acc p =>
      match typeNameOfLine suffix p.2 with
      | some n => (n, off + p.1) :: acc
      | none => acc)
    []

/-- `type_line_by_name.get(n)`. -/
def typeLineGet (m : List (List Char × Nat)) (n : List Char) : Option Nat :=
  (m.find? (fun p => p.1 = n)).map (fun p => p.2)

/-- Everything after the last dot (`s.rsplit(".", 1)[-1]`). -/
def afterLastDot (s : List Char) : List Char :=
  (s.reverse.takeWhile (fun c => c != '.')).reverse

/-- `_clean_base_name`. -/
def cleanBaseName (s : List Char) : List Char :=
  let s := stripC s
  if s.isEmpty then []
  else
    let s := stripC (s.takeWhile (fun c => !(c = '<' || c = '(')))
    if '.' ∈ s then afterLastDot s else s

/-- Prefix of `s` before the first occurrence of `pat` (`s.split(pat, 1)[0]`). -/
def beforeSub (s pat : List Char) : List Char :=
  match findSubPos s pat with
  | none => s
  | some i => s.take i

/-- `_split_supertype_list`. -/
def splitSupertypeList (raw : List Char) : List (List Char) :=
  let raw := stripC raw
  let raw := stripC (beforeSub raw [openBraceCh])
  let raw := stripC (beforeSub raw ("where".data))
  if raw.isEmpty then []
  else ((List.splitOn ',' raw).map stripC).filter (fun p => !p.isEmpty)

/-- A type-index entry list: `(relative path, final line)` pairs. -/
abbrev TypeIndex := List (List Char × List (List Char × Nat))

/-- `type_index.get(name)`. -/
def typeIndexGet (ti : TypeIndex) (n : List Char) :
    Option (List (List Char × Nat)) :=
  (ti.find? (fun p => p.1 = n)).map (fun p => p.2)

/-- `_resolve_type_ref`. -/
def resolveTypeRef (name : List Char) (tm : List (List Char × Nat))
    (ti : Option TypeIndex) : List Char :=
  match typeLineGet tm name with
  | some ln => name ++ "@L".data ++ natDigits ln
  | none =>
    match ti with
    | none => name
    | some idx =>
      let ms := (typeIndexGet idx name).getD []
      match ms with
      | [(rel, ln)] => name ++ "@".data ++ rel ++ "#L".data ++ natDigits ln
      | _ => name

/-- The per-line `(child, bases)` extraction of `_extract_inheritance`'s
second pass; `bases` pairs are `(relation, parent name)`. -/
def basesOfLine (suffix : List Char) (tm : List (List Char × Nat))
    (line : List Char) : List Char × List (List Char × List Char) :=
  if suffix = ".py".data ∨ suffix = ".pyi".data then
    match pyInheritMatch line with
    | some m =>
      let rawBases :=
        ((splitSupertypeList m.2).map cleanBaseName).filter (fun b => !b.isEmpty)
      match rawBases with
      | [] => (m.1, [])
      | b0 :: brest =>
        (m.1, ("->".data, b0) :: brest.map (fun b => ("+".data, b)))
    | none => ([], [])
  else if suffix ∈ ([".js", ".jsx", ".ts", ".tsx"].map String.data) then
    let st :=
      match jsInheritMatch line with
      | some m => (m.1, [("->".data, cleanBaseName m.2)])
      | none => (([] : List Char), ([] : List (List Char × List Char)))
    match tsImplementsMatch line with
    | some m =>
      let ifaces :=
        ((splitSupertypeList m.2).map cleanBaseName).filter (fun b => !b.isEmpty)
      (m.1, st.2 ++ ifaces.map (fun i => ("~>".data, i)))
    | none => st
  else if suffix = ".java".data then
    let st :=
      match javaInheritMatch line with
      | some m => (m.1, [("->".data, cleanBaseName m.2)])
      | none => (([] : List Char), ([] : List (List Char × List Char)))
    let st :=
      match javaImplementsMatch line with
      | some m =>
        let ifaces :=
          ((splitSupertypeList m.2).map cleanBaseName).filter
            (fun b => !b.isEmpty)
        (m.1, st.2 ++ ifaces.map (fun i => ("~>".data, i)))
      | none => st
    match javaInterfaceExtendsMatch line with
    | some m =>
      let parents :=
        ((splitSupertypeList m.2).map cleanBaseName).filter (fun b => !b.isEmpty)
      (m.1, st.2 ++ parents.map (fun p => ("->".data, p)))
    | none => st
  else if suffix = ".kt".data then
    match ktSupertypesMatch line with
    | some m =>
      let kind := m.1
      let child := m.2.1
      let raw := splitSupertypeList m.2.2
      if kind = "interface".data then
        (child, (raw.map cleanBaseName).filterMap
          (fun p => if p.isEmpty then none else some ("->".data, p)))
      else
        let rawClean := raw.map fun p =>
          (if hasSub p "(".data && hasSub p ")".data then "->".data
           else "~>".data, cleanBaseName p)
        if rawClean.any (fun rp => rp.1 = "->".data) then
          let folded := rawClean.foldl
            (fun (st : Bool × List (List Char × List Char)) rp =>
              if rp.2.isEmpty then st
              else if rp.1 = "->".data ∧ st.1 = false then
                (true, st.2 ++ [("->".data, rp.2)])
              else (st.1, st.2 ++ [("~>".data, rp.2)]))
            (false, [])
          (child, folded.2)
        else
          let folded := rawClean.foldl
            (fun (st : Nat × List (List Char × List Char)) rp =>
              if rp.2.isEmpty then (st.1 + 1, st.2)
              else
                (st.1 + 1, st.2 ++
                  [((if st.1 = 0 then "->".data else "~>".data), rp.2)]))
            (0, [])
          (child, folded.2)
    | none => ([], [])
  else if suffix = ".cs".data then
    match csSupertypesMatch line with
    | some m =>
      let kind := m.1
      let child := m.2.1
      let raw :=
        ((splitSupertypeList m.2.2).map cleanBaseName).filter
          (fun b => !b.isEmpty)
      if kind = "interface".data then
        (child, raw.map (fun p => ("->".data, p)))
      else if kind = "struct".data then
        (child, raw.map (fun p => ("~>".data, p)))
      else
        match raw with
        | [] => (child, [])
        | b0 :: brest =>
          (child, ("->".data, b0) :: brest.map (fun i => ("~>".data, i)))
    | none => ([], [])
  else if suffix = ".rs".data then
    match rsImplForMatch line with
    | some m =>
      let tr := cleanBaseName m.1
      let implFor := cleanBaseName m.2
      if !implFor.isEmpty && !tr.isEmpty && (typeLineGet tm implFor).isSome
      then (implFor, [("~>".data, tr)])
      else ([], [])
    | none => ([], [])
  else ([], [])

/-- Append the edges of one line's bases, stopping at `MAX_INHERIT_EDGES`;
returns the new accumulator and whether the cap was reached. -/
def appendBases (childRef : List Char) (tm : List (List Char × Nat))
    (ti : Option TypeIndex) :
    List (List Char × List Char) → List (List Char) →
      List (List Char) × Bool
  | [], acc => (acc, false)
  | (rel, parent) :: rest, acc =>
    if parent.isEmpty then appendBases childRef tm ti rest acc
    else
      let acc2 := acc ++ [childRef ++ rel ++ resolveTypeRef parent tm ti]
      if maxInheritEdges ≤ acc2.length then (acc2, true)
      else appendBases childRef tm ti rest acc2

/-- The edge-emission loop of `_extract_inheritance`. -/
def inheritEdgesGo (suffix : List Char) (tm : List (List Char × Nat))
    (ti : Option TypeIndex) (off : Nat) (acc : List (List Char)) :
    List (Nat × List Char) → List (List Char)
  | [] => acc
  | (idx, line) :: t =>
    let cb := basesOfLine suffix tm line
    if cb.1.isEmpty || cb.2.isEmpty then
      inheritEdgesGo suffix tm ti off acc t
    else
      let childLn := (typeLineGet tm cb.1).getD (off + idx)
      let childRef := cb.1 ++ "@L".data ++ natDigits childLn
      let r := appendBases childRef tm ti cb.2 acc
      if r.2 then r.1
      else inheritEdgesGo suffix tm ti off r.1 t

/-- `_extract_inheritance`. -/
def extractInheritance (suffix : List Char) (body : List (List Char))
    (off : Nat) (ti : Option TypeIndex) : List (List Char) :=
  inheritEdgesGo suffix (typeLineMap suffix body off) ti off []
    (List.enumFrom 1 body)

/-- Line-break characters recognized by Python's `str.splitlines`. -/
def lineBreakCh (c : Char) : Bool :=
  c = '\n' || c = '\r' || c = Char.ofNat 11 || c = Char.ofNat 12 ||
  c = Char.ofNat 28 || c = Char.ofNat 29 || c = Char.ofNat 30 ||
  c = Char.ofNat 133 || c = Char.ofNat 8232 || c = Char.ofNat 8233

/-- Accumulating worker of `pySplitlines` (`cur` holds the current line
reversed). -/
def splitlinesGo (cur : List Char) : List Char → List (List Char)
  | [] => if cur.isEmpty then [] else [cur.reverse]
  | '\r' :: '\n' :: t => (cur.reverse ++ ['\r', '\n']) :: splitlinesGo [] t
  | c :: t =>
    if lineBreakCh c then (cur.reverse ++ [c]) :: splitlinesGo [] t
    else splitlinesGo (c :: cur) t

/-- `raw.splitlines(keepends=True)`. -/
def pySplitlines (raw : List Char) : List (List Char) := splitlinesGo [] raw

/-- `ln if ln.endswith("\n") else ln + "\n"`. -/
def ensureNl (l : List Char) : List Char :=
  if ['\n'].isSuffixOf l then l else l ++ ['\n']

/-- Outcome of `annotate_file`: either the file is skipped as unsupported,
or processing finishes with a change flag and the produced content
(`new_raw`; on a no-op this equals the original content and nothing is
written). -/
inductive AnnotateResult where
  | skip
  | done (changed : Bool) (newRaw : List Char)
deriving DecidableEq

/-- `annotate_file`, on the line decomposition of the file content.
`path` only feeds error messages; `relpath` stands for
`_relpath_for_header(path, root)`; `today` for `date.today().isoformat()`;
reading and writing the file are outside the embedding. -/
def annotateLines (path relpath suffix purpose indexHint : List Char)
    (maxWidth : Nat) (refresh : Bool) (today : List Char)
    (typeIndex : Option TypeIndex) (lines : List (List Char)) :
    Except (List Char) AnnotateResult :=
  match detectCommentStyle suffix with
  | none => .ok .skip
  | some style =>
    let raw := lines.flatten
    let pr := splitProlog lines suffix
    let prolog := pr.1
    let rest := pr.2
    let docHint :=
      if (suffix = ".py".data ∨ suffix = ".pyi".data) ∧ purpose.isEmpty then
        match peekPyModuleDocstring rest with
        | some d => if d.isEmpty then [] else d
        | none => []
      else []
    match splitCodexHeader rest path with
    | .error e => .error e
    | .ok (existingHeader, restWo, _removed) =>
      let existingFields :=
        match existingHeader with
        | some h => parseExistingHeaderFields h
        | none => []
      let off := prolog.length + headerLinesN
      let syms := extractSymbols suffix restWo off
      let inher := extractInheritance suffix restWo off typeIndex
      let headerFields := reconcileHeaderFields relpath existingFields docHint
        purpose indexHint refresh today syms.1 syms.2.1 syms.2.2 inher
      let header := renderHeaderLines style headerFields maxWidth
      let newRaw := (prolog ++ header.map ensureNl ++ restWo).flatten
      let lastUpdate := reconcileLastUpdate existingFields refresh today
      let headerFinal :=
        renderHeaderLines style
          (if refresh = false ∧ existingHeader.isSome ∧ newRaw ≠ raw ∧
              lastUpdate ≠ today then
            headerFields.dropLast ++ ["Last update: ".data ++ today]
          else headerFields)
          maxWidth
      let recomputed := (prolog ++ headerFinal.map ensureNl ++ restWo).flatten
      .ok (.done (decide (recomputed ≠ raw)) recomputed)

/-- `annotate_file` on raw file content (reads, splits, annotates). -/
def annotateRaw (path relpath suffix purpose indexHint : List Char)
    (maxWidth : Nat) (refresh : Bool) (today : List Char)
    (typeIndex : Option TypeIndex) (raw : List Char) :
    Except (List Char) AnnotateResult :=
  annotateLines path relpath suffix purpose indexHint maxWidth refresh today
    typeIndex (pySplitlines raw)

/-- Remove the line terminator kept by `pySplitlines` (for modelling
`str.splitlines()` without keepends). -/
def stripEol (l : List Char) : List Char :=
  if ['\r', '\n'].isSuffixOf l then dropEnd l 2
  else
    match l.getLast? with
    | some c => if lineBreakCh c then dropEnd l 1 else l
    | none => l

/-- `raw.splitlines()` (terminators removed). -/
def pySplitlinesNoKeep (raw : List Char) : List (List Char) :=
  (pySplitlines raw).map stripEol

/-- `AUTO_POPULATED_FIELDS` of `check_incomplete_headers.py`. -/
def checkerAutoFields : List (List Char) :=
  ["Key funcs:".data, "Entrypoints:".data]

/-- `hay.replace(needle, "")` for a nonempty needle; `skip` counts
characters still covered by a previous match. -/
def removeSubGo (needle : List Char) : List Char → Nat → List Char
  | [], _ => []
  | c :: t, 0 =>
    if needle.isPrefixOf (c :: t) then removeSubGo needle t (needle.length - 1)
    else c :: removeSubGo needle t 0
  | _ :: t, k + 1 => removeSubGo needle t k

/-- `hay.replace(needle, "")` for a nonempty needle. -/
def removeSub (hay needle : List Char) : List Char := removeSubGo needle hay 0

/-- `_extract_header_lines` of the checker (its own lightweight prolog
skip: shebang, then an encoding cookie, regardless of suffix). -/
def extractHeaderLines (lines : List (List Char)) : List (List Char) :=
  let i : Nat :=
    if lines.isEmpty = false ∧ shebangLine (lines.headD []) then 1 else 0
  let i :=
    if i < lines.length ∧ pyCookieLine (lines.getD i []) then i + 1 else i
  let scanText := ((lines.drop i).take headerLinesN).flatten
  if hasSub scanText codexMarker = false then []
  else (lines.drop i).take headerLinesN

/-- `_detect_comment_style` of the checker (from the header's first line). -/
def checkerStyle (line : List Char) : List Char :=
  let l := stripC line
  if strStarts l "#".data then "line".data
  else if strStarts l "/*".data then "block".data
  else if strStarts l "<!--".data then "html".data
  else if strStarts l "--".data then "line".data
  else "line".data

/-- `_strip_comment_prefix` of the checker. -/
def stripCommentPre (line : List Char) (style : List Char) : List Char :=
  let line := rstripC line
  if style = "line".data then
    if strStarts line "#".data then
      lstripC (line.dropWhile (fun c => c = '#'))
    else line
  else if style = "block".data then
    lstripC ((removeSub (removeSub line ("/*".data)) ("*/".data)).dropWhile
      (fun c => c = '*'))
  else if style = "html".data then lstripC line
  else line

/-- `_has_functions`, on the file content instead of a path. -/
def hasFunctionsIn (raw : List Char) (suffix : List Char) : Bool :=
  let lines := pySplitlinesNoKeep raw
  let p : Nat :=
    if lines.isEmpty = false ∧ shebangLine (lines.headD []) then 1 else 0
  let p := if p < lines.length ∧ pyCookieLine (lines.getD p []) then p + 1 else p
  let bodyLines := lines.drop (p + headerLinesN)
  bodyLines.any fun line =>
    if 5000 < line.length then false
    else if suffix = ".py".data ∨ suffix = ".pyi".data then
      (pyDefName line).isSome
    else if suffix ∈ ([".js", ".jsx", ".ts", ".tsx"].map String.data) then
      (jsFnName line).isSome
    else if suffix = ".go".data then (goFuncName line).isSome
    else if suffix = ".rs".data then (rsFnName line).isSome
    else if suffix = ".java".data ∨ suffix = ".kt".data then
      hasSub line ("def ".data) && !hasSub line ("void".data)
    else false

/-- `_has_entrypoint`, on the file content instead of a path. -/
def hasEntrypointIn (raw : List Char) (suffix : List Char) : Bool :=
  if suffix = ".py".data ∨ suffix = ".pyi".data then
    hasSub raw ("__main__".data)
  else if suffix ∈ ([".js", ".jsx", ".ts", ".tsx"].map String.data) then
    hasSub raw ("export default".data) || hasSub raw ("export \x7b".data)
  else if suffix = ".rs".data then hasSub raw ("fn main()".data)
  else if suffix = ".go".data then hasSub raw ("func main()".data)
  else false

/-- The loop body of `_check_header_incomplete`: examine one header line
and append it to the accumulated offending lines when it is an unfilled
auto-populated field whose declarations the file does contain. -/
def checkerStep (raw suffix style : List Char) (acc : List (List Char))
    (line : List Char) : List (List Char) :=
  let clean := stripCommentPre line style
  match checkerAutoFields.findSome?
    (fun field => if strStarts clean field then some field else none) with
  | none => acc
  | some field =>
    let v := stripC (clean.drop field.length)
    if v = "TODO".data ∨ hasSub v ("TODO".data) then
      if field = "Key funcs:".data then
        if hasFunctionsIn raw suffix then acc ++ [clean] else acc
      else if field = "Entrypoints:".data then
        if hasEntrypointIn raw suffix then acc ++ [clean] else acc
      else acc
    else acc

/-- `_check_header_incomplete`: `(is_incomplete, offending lines)`. -/
def checkHeaderIncomplete (headerLines : List (List Char)) (raw : List Char)
    (suffix : List Char) : Bool × List (List Char) :=
  if headerLines.isEmpty ∨ headerLines.length < headerLinesN then
    (true, ["No valid header found".data])
  else
    let style := checkerStyle (headerLines.headD [])
    let incomplete := headerLines.foldl
      (checkerStep raw suffix style) []
    (0 < incomplete.length, incomplete)

/-- The per-file step of the checker's `main`: `none` when the file has no
located header (skipped), otherwise the incompleteness verdict. -/
def checkFile (raw : List Char) (suffix : List Char) :
    Option (Bool × List (List Char)) :=
  let lines := pySplitlinesNoKeep raw
  let header := extractHeaderLines lines
  if header.isEmpty then none
  else some (checkHeaderIncomplete header raw suffix)

/-- Exit status of the checker's `main` over `(content, suffix)` pairs
(files whose relative path resolves normally). -/
def checkerExitCode (files : List (List Char × List Char)) : Nat :=
  if files.any (fun f =>
      match checkFile f.1 f.2 with
      | some r => r.1
      | none => false) then 1
  else 0

/-- The eleven manual fields kept by `keep_or_todo`, with the index of
their line in the reconciled `header_fields` list. -/
def manualFieldSlots : List (List Char × Nat) :=
  [("Public API".data, 7), ("Inputs/Outputs".data, 8), ("Core flow".data, 9),
   ("Dependencies".data, 10), ("Error handling".data, 11),
   ("Config/env".data, 12), ("Side effects".data, 13),
   ("Performance".data, 14), ("Security".data, 15), ("Tests".data, 16),
   ("Known issues".data, 17)]

/-- The `(name, line)` pairs of type declarations scanned by
`_extract_symbols` (its `types` list before formatting). -/
def typePairsOf (suffix : List Char) (body : List (List Char)) (off : Nat) :
    List (List Char × Nat) :=
  (collectSyms suffix body off).filterMap fun s =>
    if s.1 = .ty then some (s.2.1, s.2.2) else none

/-- A Python body declaring five classes; used to exercise the Key-types
cap of `_extract_symbols`. -/
def c4input : List Char :=
  ("class A:\nclass B:\nclass C:\nclass D:\nclass E:\n").data

/-- The content produced by `annotate_file` on `c4input`. -/
def c4out : List Char :=
  match annotateRaw ("x.py".data) ("x.py".data) (".py".data) [] [] 120 false
      ("2026-10-12".data) none c4input with
  | .ok (.done _ r) => r
  | _ => []

/-- A Python file whose module docstring ends with a block-comment
terminator. -/
def c1input : List Char := ("\"\"\"see */\"\"\"\nx = 1\n").data

/-- Content produced by the first `annotate_file` run on `c1input`
(preserve mode, no overrides, width 120). -/
def c1run1 : List Char :=
  match annotateRaw ("b.py".data) ("b.py".data) (".py".data) [] [] 120 false
      ("2026-10-12".data) none c1input with
  | .ok (.done _ r) => r
  | _ => []

/-- Content produced by a second identical run on `c1run1`. -/
def c1run2 : List Char :=
  match annotateRaw ("b.py".data) ("b.py".data) (".py".data) [] [] 120 false
      ("2026-10-12".data) none c1run1 with
  | .ok (.done _ r) => r
  | _ => []

/-- A Ruby file with a shebang and an encoding-cookie-shaped second
line. -/
def c8input : List Char := ("#!/usr/bin/env ruby\n# coding: utf-8\nx\n").data

/-- The content produced by `annotate_file` on `c8input`. -/
def c8out : List Char :=
  match annotateRaw ("e.rb".data) ("e.rb".data) (".rb".data) [] [] 120 false
      ("2026-10-12".data) none c8input with
  | .ok (.done _ r) => r
  | _ => []

/-- A one-line Python file. -/
def c10input : List Char := ("x = 1\n").data

/-- The content produced by `annotate_file` on `c10input`. -/
def c10out : List Char :=
  match annotateRaw ("y.py".data) ("y.py".data) (".py".data) [] [] 120 false
      ("2026-10-12".data) none c10input with
  | .ok (.done _ r) => r
  | _ => []

/-- A Python file with a complete 20-line header whose auto-populated
fields were left unfilled, over a body that does define a function and an
entrypoint. -/
def c9input : List Char :=
  (("# @codex-header: v1 | 20 lines | keep updated\n" ++
    "# Path: z.py\n" ++
    "# Purpose: demo\n" ++
    "# Key types: TODO\n" ++
    "# Inheritance: TODO\n" ++
    "# Key funcs: TODO\n" ++
    "# Entrypoints: TODO\n" ++
    "# Public API: TODO\n" ++
    "# Inputs/Outputs: TODO\n" ++
    "# Core flow: TODO\n" ++
    "# Dependencies: TODO\n" ++
    "# Error handling: TODO\n" ++
    "# Config/env: TODO\n" ++
    "# Side effects: TODO\n" ++
    "# Performance: TODO\n" ++
    "# Security: TODO\n" ++
    "# Tests: TODO\n" ++
    "# Known issues: TODO\n" ++
    "# Index: TODO\n" ++
    "# Last update: 2026-10-01\n" ++
    "def f():\n" ++
    "    return 1\n" ++
    "if __name__ == \"__main__\":\n" ++
    "    f()\n")).data

/-- A Python file carrying the header marker but shorter than the 20-line
header window. -/
def c9short : List Char :=
  ("# @codex-header: v1 | 20 lines | keep updated\n# short\n").data

/-- The content produced by `annotate_file` on a Python file opening with
a shebang line and an encoding cookie. -/
def c8pyout : List Char :=
  match annotateRaw ("w.py".data) ("w.py".data) (".py".data) [] [] 120 false
      ("2026-10-12".data) none
      (("#!/usr/bin/env python\n# coding: utf-8\nx = 1\n").data) with
  | .ok (.done _ r) => r
  | _ => []

end Annot

namespace Annot

theorem collapseWs_nil : collapseWs [] = [] := rfl

theorem squeezeSpaces_length_le (l : List Char) :
    (squeezeSpaces l).length ≤ l.length := by
  induction l with
  | nil => simp [squeezeSpaces]
  | cons a t ih =>
    match t with
    | [] => simp [squeezeSpaces]
    | b :: r =>
      by_cases h : a = ' ' && b = ' '
      · simpa [squeezeSpaces, h] using Nat.le_succ_of_le ih
      · simpa [squeezeSpaces, h] using ih

theorem dropWhile_length_le (p : Char → Bool) (l : List Char) :
    (l.dropWhile p).length ≤ l.length := by
  induction l with
  | nil => simp [List.dropWhile]
  | cons a t ih =>
    by_cases h : p a
    · simpa [List.dropWhile, h] using Nat.le_succ_of_le ih
    · simp [List.dropWhile, h]

theorem rstripC_length_le (l : List Char) : (rstripC l).length ≤ l.length := by
  calc (rstripC l).length = (l.reverse.dropWhile pyWs).length := by
        simp [rstripC]
    _ ≤ l.reverse.length := dropWhile_length_le _ _
    _ = l.length := by simp

/-- The truncated string never exceeds the requested width. -/
theorem pyTruncate_length_le (s : List Char) (w : Nat) :
    (pyTruncate s w).length ≤ w := by
  unfold pyTruncate
  set t := collapseWs s with ht
  by_cases h1 : t.length ≤ w
  · simpa [h1]
  · by_cases h2 : w ≤ 1
    · simp only [h1, if_false, h2, if_true]
      exact le_trans (List.length_take_le _ _) (le_refl w)
    · simp only [h1, if_false, h2, if_true]
      have hw : 1 ≤ w := le_of_not_le h2
      have : (rstripC (t.take (w - 1))).length ≤ w - 1 :=
        le_trans (rstripC_length_le _) (by simpa using List.length_take_le _ _)
      have := Nat.add_le_add_right this 1
      simpa [Nat.sub_add_cancel hw] using this

theorem stepShebang_append (ls : List (List Char)) :
    (stepShebang ls).1 ++ (stepShebang ls).2 = ls := by
  match ls with
  | [] => rfl
  | l :: rest => by_cases h : shebangLine l <;> simp [stepShebang, h]

theorem stepXml_append (ls : List (List Char)) :
    (stepXml ls).1 ++ (stepXml ls).2 = ls := by
  match ls with
  | [] => rfl
  | l :: rest => by_cases h : xmlDeclLine l <;> simp [stepXml, h]

theorem stepCookie_append (suffix : List Char) (ls : List (List Char)) :
    (stepCookie suffix ls).1 ++ (stepCookie suffix ls).2 = ls := by
  match ls with
  | [] => rfl
  | l :: rest =>
    by_cases h : (suffix = ".py".data || suffix = ".pyi".data) && pyCookieLine l <;>
      simp [stepCookie, h]

theorem stepGoBuild_spec (ls : List (List Char)) :
    (stepGoBuild ls).1 ++ (stepGoBuild ls).2 = ls ∨
      ∃ a b, ls = a ++ b ∧
        (stepGoBuild ls).1 ++ (stepGoBuild ls).2 = a ++ [['\n']] ++ b := by
  match ls with
  | [] => exact Or.inl rfl
  | l :: rest =>
    by_cases h : goBuildLine l
    · have hsplit :
          (l :: rest).takeWhile goBuildLine ++ (l :: rest).dropWhile goBuildLine
            = l :: rest := List.takeWhile_append_dropWhile _ _
      cases hdrop : (l :: rest).dropWhile goBuildLine with
      | nil =>
        refine Or.inr ⟨(l :: rest).takeWhile goBuildLine, [], ?_, ?_⟩
        · simpa [hdrop] using hsplit.symm
        · simp [stepGoBuild, h, hdrop]
      | cons b rest3 =>
        by_cases hb : blankLine b
        · refine Or.inl ?_
          simp only [stepGoBuild, h, if_true, hdrop, hb]
          simpa [hdrop] using hsplit
        · refine Or.inr ⟨(l :: rest).takeWhile goBuildLine, b :: rest3, ?_, ?_⟩
          · simpa [hdrop] using hsplit.symm
          · simp [stepGoBuild, h, hdrop, hb]
    · exact Or.inl (by simp [stepGoBuild, h])

theorem stepRustAttr_append (ls : List (List Char)) :
    (stepRustAttr ls).1 ++ (stepRustAttr ls).2 = ls := by
  match ls with
  | [] => rfl
  | l :: rest =>
    by_cases h : rustAttrLine l
    · have hsplit :
          (l :: rest).takeWhile rustAttrLine ++ (l :: rest).dropWhile rustAttrLine
            = l :: rest := List.takeWhile_append_dropWhile _ _
      cases hdrop : (l :: rest).dropWhile rustAttrLine with
      | nil =>
        simp only [stepRustAttr, h, if_true, hdrop]
        simpa [hdrop] using hsplit
      | cons b rest3 =>
        by_cases hb : blankLine b
        · simp only [stepRustAttr, h, if_true, hdrop, hb, if_true]
          simpa [hdrop] using hsplit
        · simp only [stepRustAttr, h, if_true, hdrop, hb, if_false]
          simpa [hdrop] using hsplit
    · simp [stepRustAttr, h]

/-- Helper: the full reassembly invariant of `splitProlog`. -/
theorem splitProlog_reassembles (lines : List (List Char)) (suffix : List Char) :
    (splitProlog lines suffix).1 ++ (splitProlog lines suffix).2 = lines ∨
      ∃ a b, lines = a ++ b ∧
        (splitProlog lines suffix).1 ++ (splitProlog lines suffix).2
          = a ++ [['\n']] ++ b := by
  by_cases hne : lines.isEmpty
  · left
    have : lines = [] := by
      cases lines with
      | nil => rfl
      | cons x xs => simp [List.isEmpty] at hne
    simp [splitProlog, hne, this]
  · rcases e0 : stepShebang lines with ⟨p0, r0⟩
    rcases e1 : stepXml r0 with ⟨p1, r1⟩
    rcases e2 : stepCookie suffix r1 with ⟨p2, r2⟩
    rcases e3 : stepGoBuild r2 with ⟨p3, r3⟩
    rcases e4 : stepRustAttr r3 with ⟨p4, r4⟩
    have h0 := stepShebang_append lines
    have h1 := stepXml_append r0
    have h2 := stepCookie_append suffix r1
    have h3 := stepGoBuild_spec r2
    have h4 := stepRustAttr_append r3
    rw [e0] at h0
    rw [e1] at h1
    rw [e2] at h2
    rw [e3] at h3
    rw [e4] at h4
    simp only at h0 h1 h2 h3 h4
    have hsp : splitProlog lines suffix = (p0 ++ p1 ++ p2 ++ p3 ++ p4, r4) := by
      simp [splitProlog, hne, e0, e1, e2, e3, e4]
    rw [hsp]
    simp only [List.append_assoc]
    rcases h3 with h3 | ⟨a, b, hab, h3⟩
    · left
      rw [h4, h3, h2, h1, h0]
    · right
      refine ⟨p0 ++ p1 ++ p2 ++ a, b, ?_, ?_⟩
      · rw [← h0, ← h1, ← h2, hab]
        simp [List.append_assoc]
      · simp only [List.append_assoc] at h3 ⊢
        rw [h4, h3]

theorem dropWhile_eq_self_of_none (p : Char → Bool) (l : List Char)
    (h : ∀ c ∈ l, p c = false) : l.dropWhile p = l := by
  cases l with
  | nil => rfl
  | cons a t =>
    have ha : p a = false := h a (by simp)
    simp [List.dropWhile, ha]

theorem lstripC_eq_self (l : List Char) (h : ∀ c ∈ l, pyWs c = false) :
    lstripC l = l := dropWhile_eq_self_of_none _ _ h

theorem rstripC_eq_self (l : List Char) (h : ∀ c ∈ l, pyWs c = false) :
    rstripC l = l := by
  unfold rstripC
  rw [dropWhile_eq_self_of_none _ _ (by simpa using h)]
  simp

theorem stripC_eq_self (l : List Char) (h : ∀ c ∈ l, pyWs c = false) :
    stripC l = l := by
  unfold stripC
  rw [lstripC_eq_self _ h, rstripC_eq_self _ h]

theorem squeezeSpaces_eq_self (l : List Char) (h : ∀ c ∈ l, c ≠ ' ') :
    squeezeSpaces l = l := by
  induction l with
  | nil => rfl
  | cons a t ih =>
    match t with
    | [] => simp [squeezeSpaces]
    | b :: r =>
      have ha : a ≠ ' ' := h a (by simp)
      have hrest : ∀ c ∈ b :: r, c ≠ ' ' := fun c hc => h c (by simp [hc])
      have : (a = ' ' && b = ' ') = false := by
        simp [ha]
      simp only [squeezeSpaces, this, if_false]
      simp [ih hrest]

theorem collapseWs_eq_self (l : List Char) (h : ∀ c ∈ l, pyWs c = false) :
    collapseWs l = l := by
  unfold collapseWs
  rw [stripC_eq_self _ h]
  have hmap : l.map (fun c => if pyWs c then ' ' else c) = l := by
    have : l.map (fun c => if pyWs c then ' ' else c) = l.map id := by
      apply List.map_congr_left
      intro c hc
      simp [h c hc]
    simpa using this
  rw [hmap]
  apply squeezeSpaces_eq_self
  intro c hc hsp
  have := h c hc
  rw [hsp] at this
  simp [pyWs] at this

theorem blockNormalize_length (fields : List (List Char)) :
    (blockNormalize fields).length = headerLinesN := by
  have h20 : headerLinesN = 20 := rfl
  unfold blockNormalize
  rw [h20]
  by_cases h1 : 20 < fields.length
  · have hne : fields ≠ [] := by
      intro h
      rw [h] at h1
      simp at h1
    obtain ⟨x, hx⟩ := Option.isSome_iff_exists.mp (List.getLast?_isSome.mpr hne)
    have hlen : (fields.take (20 - 1) ++ fields.getLast?.toList).length = 20 := by
      rw [hx]
      simp [List.length_take]
      omega
    simp only [h20, h1, if_true, hlen]
    rw [hx]
    simp
    omega
  · push_neg at h1
    simp only [h20, if_neg (by omega : ¬(20 : Nat) < fields.length)]
    by_cases h2 : fields.length < 20
    · simp only [if_pos h2]
      cases hfe : fields with
      | nil => simp
      | cons a t =>
        have hne : fields ≠ [] := by simp [hfe]
        obtain ⟨x, hx⟩ :=
          Option.isSome_iff_exists.mp (List.getLast?_isSome.mpr hne)
        rw [← hfe, hx]
        simp [List.length_dropLast]
        have : fields.length ≠ 0 := by simp [hfe]
        omega
    · simp only [if_neg h2]
      omega

theorem blockNormalize_getLast? (fields : List (List Char)) (h : fields ≠ []) :
    (blockNormalize fields).getLast? = fields.getLast? := by
  obtain ⟨x, hx⟩ := Option.isSome_iff_exists.mp (List.getLast?_isSome.mpr h)
  have h20 : headerLinesN = 20 := rfl
  unfold blockNormalize
  rw [h20]
  by_cases h1 : 20 < fields.length
  · have hlen : (fields.take (20 - 1) ++ fields.getLast?.toList).length = 20 := by
      rw [hx]
      simp [List.length_take]
      omega
    simp only [h20, h1, if_true, hlen]
    rw [hx]
    simp only [Option.toList_some]
    rw [if_neg (by omega : ¬(20 : Nat) < 20)]
    exact List.getLast?_concat _
  · push_neg at h1
    simp only [h20, if_neg (by omega : ¬(20 : Nat) < fields.length)]
    by_cases h2 : fields.length < 20
    · simp only [if_pos h2, hx, Option.toList_some]
      exact List.getLast?_concat _
    · simp only [if_neg h2]

theorem renderHeaderLines_length (style : CommentStyle)
    (fields : List (List Char)) (w : Nat) :
    (renderHeaderLines style fields w).length = 20 := by
  unfold renderHeaderLines
  by_cases hk : style.kind = "block".data
  · simp only [hk, if_true]
    have hbl := blockNormalize_length fields
    rcases hbn : blockNormalize fields with _ | ⟨f0, rest⟩
    · rw [hbn] at hbl
      simp [headerLinesN] at hbl
    · rw [hbn] at hbl
      simp only [List.length_cons, headerLinesN] at hbl
      simp only [List.length_cons, List.length_append, List.length_map,
        List.length_dropLast, List.length_cons]
      simp
      omega
  · simp only [hk, if_false]
    by_cases h2 : headerLinesN < (fields.map
        (fun f => style.linePre ++ pyTruncate f w)).length
    · simp only [if_pos h2]
      simp only [List.length_append, List.length_take, List.length_replicate,
        List.length_map, headerLinesN] at h2 ⊢
      omega
    · simp only [if_neg h2]
      simp only [List.length_append, List.length_replicate, List.length_map,
        headerLinesN] at h2 ⊢
      omega

theorem renderHeaderLines_block_last (style : CommentStyle)
    (fields : List (List Char)) (w : Nat) (hk : style.kind = "block".data)
    (hne : fields ≠ []) :
    (renderHeaderLines style fields w).getLast? =
      some (style.blockLinePre ++ pyTruncate (fields.getLastD []) w ++
        ' ' :: style.blockEnd) := by
  unfold renderHeaderLines
  simp only [hk, if_true]
  have hbl := blockNormalize_length fields
  have hbg := blockNormalize_getLast? fields hne
  rcases hbn : blockNormalize fields with _ | ⟨f0, rest⟩
  · rw [hbn] at hbl
    simp [headerLinesN] at hbl
  · rw [hbn] at hbg
    have hlast : (f0 :: rest).getLastD [] = fields.getLastD [] := by
      rw [List.getLastD_eq_getLast?, List.getLastD_eq_getLast?, hbg]
    dsimp only
    rw [hlast]
    have h2 : ((style.blockStart ++ ' ' :: pyTruncate f0 w) ::
        (rest.dropLast.map (fun f => style.blockLinePre ++ pyTruncate f w)) ++
        [style.blockLinePre ++ pyTruncate (fields.getLastD []) w ++
          ' ' :: style.blockEnd]).getLast? =
        some (style.blockLinePre ++ pyTruncate (fields.getLastD []) w ++
          ' ' :: style.blockEnd) := List.getLast?_concat _
    simpa using h2

/-- C7: `_split_prolog` reassembly invariant — concatenating the prolog
and body lines reproduces the original line sequence, except for at most
one synthesized blank line inserted by the build-directive rule. -/
theorem c7_split_prolog_reassembly (lines : List (List Char))
    (suffix : List Char) :
    (splitProlog lines suffix).1 ++ (splitProlog lines suffix).2 = lines ∨
      ∃ a b, lines = a ++ b ∧
        (splitProlog lines suffix).1 ++ (splitProlog lines suffix).2
          = a ++ [['\n']] ++ b :=
  splitProlog_reassembles lines suffix

/-- C6 counterexample: a 200-character field value consisting of
whitespace renders as the empty string under max-width 120, not as a
120-character string ending in the truncation marker. -/
theorem c6_counterexample :
    (List.replicate 200 ' ' : List Char).length = 200 ∧
      pyTruncate (List.replicate 200 ' ') 120 = [] := by
  exact ⟨by simp, by decide⟩

/-- C6 (amended): a 200-character value with no whitespace rendered at
max-width 120 is a 120-character string ending in the truncation marker,
and for every value and width the rendered value never exceeds the
width, marker included. -/
theorem c6_width_truncation :
    (∀ s : List Char, s.length = 200 → (∀ c ∈ s, pyWs c = false) →
        (pyTruncate s 120).length = 120 ∧
          (pyTruncate s 120).getLast? = some '…') ∧
      ∀ (s : List Char) (w : Nat), (pyTruncate s w).length ≤ w := by
  constructor
  · intro s hlen hws
    have hc : collapseWs s = s := collapseWs_eq_self s hws
    have hres : pyTruncate s 120 = rstripC (s.take 119) ++ ['…'] := by
      simp only [pyTruncate, hc, hlen]
      norm_num
    have htk : rstripC (s.take 119) = s.take 119 :=
      rstripC_eq_self _ (fun c hc2 => hws c (List.take_subset _ _ hc2))
    constructor
    · rw [hres, htk]
      simp [List.length_take, hlen]
    · rw [hres]
      exact List.getLast?_concat _
  · exact pyTruncate_length_le

/-- Witness for C6, at a 200-character run of `a` and a small width. -/
theorem c6_witness :
    (List.replicate 200 'a' : List Char).length = 200 ∧
      (pyTruncate (List.replicate 200 'a') 120).length = 120 ∧
      (pyTruncate (List.replicate 200 'a') 120).getLast? = some '…' ∧
      (pyTruncate ("hello".data) 3).length ≤ 3 := by
  refine ⟨by simp, ?_, ?_, c6_width_truncation.2 ("hello".data) 3⟩
  · exact (c6_width_truncation.1 (List.replicate 200 'a') (by simp)
      (by decide)).1
  · exact (c6_width_truncation.1 (List.replicate 200 'a') (by simp)
      (by decide)).2

/-- C5 counterexample: in a line-comment style with 5 fields, the final
field is rendered on line 5 and the last line is a bare comment prefix —
the final field is not retained as the last line. -/
theorem c5_counterexample :
    (renderHeaderLines (lineStyle "# ")
        (["A", "B", "C", "D", "LAST"].map String.data) 120).getLast?
      = some ("#".data) ∧
    (renderHeaderLines (lineStyle "# ")
        (["A", "B", "C", "D", "LAST"].map String.data) 120)[4]?
      = some ("# LAST".data) := by
  constructor
  · decide
  · decide

theorem blockNormalize_over (fields : List (List Char))
    (h : headerLinesN < fields.length) :
    blockNormalize fields =
      blockNormalize (fields.take (headerLinesN - 1) ++
        [fields.getLastD []]) := by
  have hne : fields ≠ [] := by
    intro he
    rw [he] at h
    simp [headerLinesN] at h
  obtain ⟨x, hx⟩ : ∃ x, fields.getLast? = some x := by
    cases hgl : fields.getLast? with
    | none => exact absurd (List.getLast?_eq_none_iff.mp hgl) hne
    | some x => exact ⟨x, rfl⟩
  have hxd : fields.getLastD [] = x := by
    simp [List.getLastD_eq_getLast?, hx]
  have h20 : 20 < fields.length := h
  have hlen : (fields.take (headerLinesN - 1) ++ [x]).length
      = headerLinesN := by
    simp [List.length_take, headerLinesN]
    omega
  have lhs_eq : blockNormalize fields =
      fields.take (headerLinesN - 1) ++ [x] := by
    unfold blockNormalize
    simp only [hx, Option.toList_some, if_pos h]
    have hc : ¬((fields.take (headerLinesN - 1) ++ [x]).length <
        headerLinesN) := by
      rw [hlen]
      exact lt_irrefl _
    rw [if_neg hc]
  have rhs_eq : blockNormalize (fields.take (headerLinesN - 1) ++ [x]) =
      fields.take (headerLinesN - 1) ++ [x] := by
    unfold blockNormalize
    have hc1 : ¬(headerLinesN <
        (fields.take (headerLinesN - 1) ++ [x]).length) := by
      rw [hlen]
      exact lt_irrefl _
    rw [if_neg hc1]
    have hc2 : ¬((fields.take (headerLinesN - 1) ++ [x]).length <
        headerLinesN) := by
      rw [hlen]
      exact lt_irrefl _
    rw [if_neg hc2]
  rw [hxd, lhs_eq, rhs_eq]

theorem renderHeaderLines_block_over (style : CommentStyle)
    (fields : List (List Char)) (w : Nat)
    (hk : style.kind = "block".data) (h : headerLinesN < fields.length) :
    renderHeaderLines style fields w =
      renderHeaderLines style
        (fields.take (headerLinesN - 1) ++ [fields.getLastD []]) w := by
  unfold renderHeaderLines
  simp only [if_pos hk]
  rw [blockNormalize_over fields h]

theorem renderHeaderLines_line_over (style : CommentStyle)
    (fields : List (List Char)) (w : Nat)
    (hk : ¬ style.kind = "block".data) (h : headerLinesN < fields.length) :
    renderHeaderLines style fields w =
      renderHeaderLines style (fields.take headerLinesN) w := by
  unfold renderHeaderLines
  simp only [if_neg hk, List.length_map, List.map_take, List.length_take]
  have hmin : min headerLinesN fields.length = headerLinesN := by omega
  rw [if_pos h, hmin]
  rw [if_neg (lt_irrefl headerLinesN)]

/-- C5 (amended): the rendered header is always exactly 20 physical
lines.  For block styles the final field is always rendered on the last
line, and with more than 20 fields the output is that of the first 19
fields plus the last.  For line styles, with more than 20 fields the
output is that of the first 20 fields alone — the final (Last update)
field is dropped — and with fewer than 20 fields the last field is not
on the last line. -/
theorem c5_exact_header_size (style : CommentStyle)
    (fields : List (List Char)) (w : Nat) :
    (renderHeaderLines style fields w).length = 20 ∧
    (style.kind = "block".data → fields ≠ [] →
      (renderHeaderLines style fields w).getLast? =
        some (style.blockLinePre ++ pyTruncate (fields.getLastD []) w ++
          ' ' :: style.blockEnd)) ∧
    (style.kind = "block".data → headerLinesN < fields.length →
      renderHeaderLines style fields w =
        renderHeaderLines style
          (fields.take (headerLinesN - 1) ++ [fields.getLastD []]) w) ∧
    (style.kind ≠ "block".data → headerLinesN < fields.length →
      renderHeaderLines style fields w =
        renderHeaderLines style (fields.take headerLinesN) w) :=
  ⟨renderHeaderLines_length style fields w,
   fun hk hne => renderHeaderLines_block_last style fields w hk hne,
   fun hk h => renderHeaderLines_block_over style fields w hk h,
   fun hk h => renderHeaderLines_line_over style fields w hk h⟩

/-- Witness for C5, at the block style with 3 fields and at both styles
with 21 fields. -/
theorem c5_witness :
    (renderHeaderLines blockStyleC
        (["A", "B", "LAST"].map String.data) 120).length = 20 ∧
    (renderHeaderLines blockStyleC
        (["A", "B", "LAST"].map String.data) 120).getLast? =
      some (blockStyleC.blockLinePre ++
        pyTruncate ((["A", "B", "LAST"].map String.data).getLastD []) 120 ++
        ' ' :: blockStyleC.blockEnd) ∧
    renderHeaderLines blockStyleC
        (List.replicate 20 ("F".data) ++ [("LAST".data)]) 120 =
      renderHeaderLines blockStyleC
        ((List.replicate 20 ("F".data) ++ [("LAST".data)]).take
            (headerLinesN - 1) ++
          [(List.replicate 20 ("F".data) ++ [("LAST".data)]).getLastD []])
        120 ∧
    renderHeaderLines (lineStyle "# ")
        (List.replicate 20 ("F".data) ++ [("LAST".data)]) 120 =
      renderHeaderLines (lineStyle "# ")
        ((List.replicate 20 ("F".data) ++ [("LAST".data)]).take headerLinesN)
        120 :=
  ⟨(c5_exact_header_size blockStyleC (["A", "B", "LAST"].map String.data)
      120).1,
   (c5_exact_header_size blockStyleC (["A", "B", "LAST"].map String.data)
      120).2.1 rfl (by decide),
   (c5_exact_header_size blockStyleC
      (List.replicate 20 ("F".data) ++ [("LAST".data)]) 120).2.2.1 rfl
      (by decide),
   (c5_exact_header_size (lineStyle "# ")
      (List.replicate 20 ("F".data) ++ [("LAST".data)]) 120).2.2.2
      (by decide) (by decide)⟩

/-- C2 counterexample: for a one-line body holding the marker, the
operation fails, but the short-body error message does not name the
offending file. -/
theorem c2_counterexample :
    splitCodexHeader [("@codex-header: v1\n".data)] ("a.py".data)
      = .error
        ("found @codex-header: v1 but file is shorter than 20 lines".data) ∧
    hasSub ("found @codex-header: v1 but file is shorter than 20 lines".data)
      ("a.py".data) = false := by
  constructor
  · rfl
  · decide

/-- C2 (amended): `_split_existing_codex_header` returns the body
unchanged when the marker is absent from the joined first 60 lines;
accepts exactly the first 20 lines as the header when the body has at
least 20 lines and the marker lies in one of them; and otherwise fails
with a validation error — only the misplaced-marker error names the
offending file, the short-body error does not. -/
theorem c2_header_window (rest : List (List Char)) (path : List Char) :
    (hasSub (rest.take 60).flatten codexMarker = false →
        splitCodexHeader rest path = .ok (none, rest, false)) ∧
      (hasSub (rest.take 60).flatten codexMarker = true →
        rest.length < headerLinesN →
        splitCodexHeader rest path =
          .error
            ("found @codex-header: v1 but file is shorter than 20 lines".data)) ∧
      (hasSub (rest.take 60).flatten codexMarker = true →
        headerLinesN ≤ rest.length →
        (rest.take headerLinesN).any (fun ln => hasSub ln codexMarker) = true →
        splitCodexHeader rest path =
          .ok (some (rest.take headerLinesN), rest.drop headerLinesN, true)) ∧
      (hasSub (rest.take 60).flatten codexMarker = true →
        headerLinesN ≤ rest.length →
        (rest.take headerLinesN).any (fun ln => hasSub ln codexMarker) = false →
        splitCodexHeader rest path =
          .error
            (("found @codex-header: v1 near top but header is not the first " ++
              "20 lines; manually normalize the header in ").data ++ path)) := by
  refine ⟨?_, ?_, ?_, ?_⟩
  · intro h1
    simp [splitCodexHeader, h1]
  · intro h1 h2
    simp [splitCodexHeader, h1, h2]
  · intro h1 h2 h3
    simp [splitCodexHeader, h1, h3, Nat.not_lt.mpr h2]
  · intro h1 h2 h3
    simp [splitCodexHeader, h1, h3, Nat.not_lt.mpr h2]

/-- Witness for C2, at a 20-line body with the marker on line 1. -/
theorem c2_witness :
    splitCodexHeader
        (("@codex-header: v1\n".data) :: List.replicate 19 ("x\n".data))
        ("a.py".data)
      = .ok
        (some ((("@codex-header: v1\n".data) ::
            List.replicate 19 ("x\n".data)).take headerLinesN),
         (("@codex-header: v1\n".data) ::
            List.replicate 19 ("x\n".data)).drop headerLinesN,
         true) :=
  (c2_header_window
      (("@codex-header: v1\n".data) :: List.replicate 19 ("x\n".data))
      ("a.py".data)).2.2.1 (by decide) (by decide) (by decide)

/-- C3: for each manual field with a non-placeholder value `v` in the
prior header and no override, reconciliation keeps `v` in preserve mode
and resets the field to the `TODO` placeholder in refresh mode. -/
theorem c3_manual_field_policy
    (hdr : List (List Char)) (relpath docHint today : List Char)
    (types funcs entrypoints inheritance : List (List Char))
    (k : List Char) (i : Nat) (v : List Char)
    (hk : (k, i) ∈ manualFieldSlots)
    (hv : fieldsGet (parseExistingHeaderFields hdr) k = some v)
    (hnp : isPlaceholder (some v) = false) :
    (reconcileHeaderFields relpath (parseExistingHeaderFields hdr) docHint
        [] [] false today types funcs entrypoints inheritance)[i]?
      = some (k ++ ": ".data ++ v) ∧
    (reconcileHeaderFields relpath (parseExistingHeaderFields hdr) docHint
        [] [] true today types funcs entrypoints inheritance)[i]?
      = some (k ++ ": ".data ++ "TODO".data) := by
  simp only [manualFieldSlots, List.mem_cons, List.mem_singleton,
    Prod.mk.injEq, List.not_mem_nil, or_false] at hk
  rcases hk with ⟨hk1, hk2⟩ | ⟨hk1, hk2⟩ | ⟨hk1, hk2⟩ | ⟨hk1, hk2⟩ |
    ⟨hk1, hk2⟩ | ⟨hk1, hk2⟩ | ⟨hk1, hk2⟩ | ⟨hk1, hk2⟩ | ⟨hk1, hk2⟩ |
    ⟨hk1, hk2⟩ | ⟨hk1, hk2⟩ <;>
    subst hk1 <;> subst hk2 <;>
    constructor <;>
    simp [reconcileHeaderFields, hv, hnp]

theorem extractSymbols_fst_eq (suffix : List Char) (body : List (List Char))
    (off : Nat) :
    (extractSymbols suffix body off).1 =
      fmtRefs 4 [] [] (typePairsOf suffix body off) := rfl

theorem collectSyms_append_one (suffix : List Char) (body : List (List Char))
    (off : Nat) (line : List Char) :
    collectSyms suffix (body ++ [line]) off =
      collectSyms suffix body off ++
        ((classifyLine suffix line).map
          (fun s => (s.1, s.2, off + (body.length + 1)))).toList := by
  unfold collectSyms
  rw [List.enumFrom_append, List.filterMap_append]
  congr 1
  have : List.enumFrom (1 + body.length) [line]
      = [(1 + body.length, line)] := rfl
  rw [this]
  cases h : classifyLine suffix line with
  | none => simp [h]
  | some s => simp [h, Nat.add_comm]

theorem typePairsOf_append_ty (suffix : List Char) (body : List (List Char))
    (off : Nat) (line : List Char) (nm : List Char)
    (h : classifyLine suffix line = some (SymKind.ty, nm)) :
    typePairsOf suffix (body ++ [line]) off =
      typePairsOf suffix body off ++ [(nm, off + (body.length + 1))] := by
  unfold typePairsOf
  rw [collectSyms_append_one, List.filterMap_append]
  congr 1
  rw [h]
  rfl

theorem typePairsOf_name_mem (suffix : List Char) (body : List (List Char))
    (off : Nat) (p : List Char × Nat) (hp : p ∈ typePairsOf suffix body off) :
    ∃ l ∈ body, classifyLine suffix l = some (SymKind.ty, p.1) := by
  unfold typePairsOf collectSyms at hp
  rw [List.mem_filterMap] at hp
  obtain ⟨s, hs, hsome⟩ := hp
  rw [List.mem_filterMap] at hs
  obtain ⟨q, hq, hqsome⟩ := hs
  refine ⟨q.2, List.snd_mem_of_mem_enumFrom hq, ?_⟩
  cases hc : classifyLine suffix q.2 with
  | none =>
    rw [hc] at hqsome
    simp at hqsome
  | some t =>
    rw [hc] at hqsome
    have hs2 : s = (t.1, t.2, off + q.1) := by
      have h2 := hqsome.symm
      simpa using h2
    subst hs2
    by_cases hty : t.1 = SymKind.ty
    · rw [if_pos hty] at hsome
      have hp2 : p = (t.2, off + q.1) := by
        simpa using hsome.symm
      have ht : t = (SymKind.ty, t.2) := by
        cases t with
        | mk a b =>
          simp only [Prod.mk.injEq]
          exact ⟨hty, trivial⟩
      rw [hp2, ht]
    · rw [if_neg hty] at hsome
      simp at hsome

theorem fmtRefs_cons (limit : Nat) (seen out : List (List Char))
    (pn : List Char) (pln : Nat) (t : List (List Char × Nat)) :
    fmtRefs limit seen out ((pn, pln) :: t) =
      if pn ∈ seen then fmtRefs limit seen out t
      else
        if limit ≤ (out ++ [pn ++ "@L".data ++ natDigits pln]).length then
          out ++ [pn ++ "@L".data ++ natDigits pln]
        else
          fmtRefs limit (pn :: seen)
            (out ++ [pn ++ "@L".data ++ natDigits pln]) t := rfl

theorem fmtRefs_append_fresh (limit : Nat) (nm : List Char) (ln : Nat)
    (ps : List (List Char × Nat)) :
    ∀ (seen out : List (List Char)),
      nm ∉ seen → (∀ p ∈ ps, p.1 ≠ nm) →
      (fmtRefs limit seen out ps).length < limit →
      fmtRefs limit seen out (ps ++ [(nm, ln)]) =
        fmtRefs limit seen out ps ++ [nm ++ "@L".data ++ natDigits ln] := by
  induction ps with
  | nil =>
    intro seen out hn _ _
    rw [List.nil_append, fmtRefs_cons, if_neg (by simpa using hn)]
    by_cases hcap : limit ≤ (out ++ [nm ++ "@L".data ++ natDigits ln]).length
    · rw [if_pos hcap]
      rfl
    · rw [if_neg hcap]
      rfl
  | cons p t ih =>
    obtain ⟨pn, pln⟩ := p
    intro seen out hn hps hlen
    have hfresh : ∀ q ∈ t, q.1 ≠ nm := fun q hq => hps q (by simp [hq])
    have hsplit : ((pn, pln) :: t) ++ [(nm, ln)]
        = (pn, pln) :: (t ++ [(nm, ln)]) := rfl
    rw [fmtRefs_cons] at hlen
    rw [hsplit, fmtRefs_cons, fmtRefs_cons]
    by_cases hmem : pn ∈ seen
    · rw [if_pos hmem] at hlen
      rw [if_pos hmem, if_pos hmem]
      exact ih seen out hn hfresh hlen
    · rw [if_neg hmem] at hlen
      rw [if_neg hmem, if_neg hmem]
      by_cases hcap : limit ≤ (out ++ [pn ++ "@L".data ++ natDigits pln]).length
      · rw [if_pos hcap] at hlen
        omega
      · rw [if_neg hcap] at hlen
        rw [if_neg hcap, if_neg hcap]
        have hne : pn ≠ nm := by simpa using hps (pn, pln) (by simp)
        have hnm2 : nm ∉ pn :: seen := by
          intro hcontra
          rcases List.mem_cons.mp hcontra with h | h
          · exact hne h.symm
          · exact hn h
        exact ih (pn :: seen) (out ++ [pn ++ "@L".data ++ natDigits pln])
          hnm2 hfresh hlen

/-- C4 counterexample: the `Key types` list is capped at four names, so
annotating a body whose fifth top-level class is `E` emits a header whose
Key types field does not include `E`'s reference. -/
theorem c4_counterexample :
    hasSub c4input ("class E:".data) = true ∧
    c4out ≠ [] ∧
    hasSub c4out ("Key types: A@L21, B@L22, C@L23, D@L24".data) = true ∧
    hasSub c4out ("E@".data) = false := by
  refine ⟨by decide, by decide, by decide, by decide⟩

/-- C4 (amended): the Key types entry of the reconciled header is always
the freshly computed type list — independent of any prior header fields
and of the mode — and a newly appended type declaration with a fresh name
is included in it provided fewer than four type names were already
listed. -/
theorem c4_key_types_recomputed :
    (∀ (relpath docHint purpose indexHint today : List Char)
        (existingFields : List (List Char × List Char)) (refresh : Bool)
        (types funcs entrypoints inheritance : List (List Char)),
      (reconcileHeaderFields relpath existingFields docHint purpose indexHint
          refresh today types funcs entrypoints inheritance)[3]?
        = some ("Key types: ".data ++
            (if types.isEmpty then "TODO".data else joinCommaSp types))) ∧
    (∀ (suffix : List Char) (body : List (List Char)) (off : Nat)
        (line nm : List Char),
      classifyLine suffix line = some (SymKind.ty, nm) →
      (∀ l ∈ body, classifyLine suffix l ≠ some (SymKind.ty, nm)) →
      (extractSymbols suffix body off).1.length < 4 →
      (extractSymbols suffix (body ++ [line]) off).1 =
        (extractSymbols suffix body off).1 ++
          [nm ++ "@L".data ++ natDigits (off + (body.length + 1))]) := by
  constructor
  · intro relpath docHint purpose indexHint today existingFields refresh
      types funcs entrypoints inheritance
    simp [reconcileHeaderFields]
  · intro suffix body off line nm hline hfresh hlen
    have htp := typePairsOf_append_ty suffix body off line nm hline
    have hfr : ∀ p ∈ typePairsOf suffix body off, p.1 ≠ nm := by
      intro p hp heq
      obtain ⟨l, hl, hcl⟩ := typePairsOf_name_mem suffix body off p hp
      exact hfresh l hl (by rw [hcl, heq])
    rw [extractSymbols_fst_eq] at hlen
    rw [extractSymbols_fst_eq, extractSymbols_fst_eq, htp]
    exact fmtRefs_append_fresh 4 nm (off + (body.length + 1))
      (typePairsOf suffix body off) [] [] (by simp) hfr hlen

/-- Witness for C4, at a one-class Python body extended with a second
class. -/
theorem c4_witness :
    (reconcileHeaderFields [] [] [] [] [] false ("2026-10-12".data)
        [("A@L21".data)] [] [] [])[3]?
      = some ("Key types: ".data ++
          (if ([("A@L21".data)] : List (List Char)).isEmpty then "TODO".data
           else joinCommaSp [("A@L21".data)])) ∧
    (extractSymbols (".py".data)
        ([("class A:\n".data)] ++ [("class B:\n".data)]) 20).1 =
      (extractSymbols (".py".data) [("class A:\n".data)] 20).1 ++
        [("B".data) ++ "@L".data ++ natDigits (20 + (1 + 1))] :=
  ⟨c4_key_types_recomputed.1 [] [] [] [] ("2026-10-12".data) [] false
      [("A@L21".data)] [] [] [],
   c4_key_types_recomputed.2 (".py".data) [("class A:\n".data)] 20
      ("class B:\n".data) ("B".data) (by decide) (by decide) (by decide)⟩

/-- C1 (code bug): re-running `annotate_file` in preserve mode with no
overrides, same root, width and date on content the prior run produced is
not a no-op — the header-syntax stripper removes the trailing `*/` from
the preserved Purpose value, so the second run reports a change and
rewrites the file. -/
theorem c1_idempotence_failure :
    annotateRaw ("b.py".data) ("b.py".data) (".py".data) [] [] 120 false
        ("2026-10-12".data) none c1input = .ok (.done true c1run1) ∧
    annotateRaw ("b.py".data) ("b.py".data) (".py".data) [] [] 120 false
        ("2026-10-12".data) none c1run1 = .ok (.done true c1run2) ∧
    c1run2 ≠ c1run1 ∧
    hasSub c1run1 ("# Purpose: see */\n".data) = true ∧
    hasSub c1run2 ("# Purpose: see\n".data) = true := by
  refine ⟨rfl, rfl, by decide, by decide, by decide⟩

theorem annotateLines_shape (path relpath suffix purpose indexHint : List Char)
    (maxWidth : Nat) (refresh : Bool) (today : List Char)
    (typeIndex : Option TypeIndex) (lines : List (List Char))
    (c : Bool) (R : List Char)
    (h : annotateLines path relpath suffix purpose indexHint maxWidth refresh
      today typeIndex lines = .ok (.done c R)) :
    ∃ (hdr restWo : List (List Char)),
      hdr.length = 20 ∧
      (∃ eh found, splitCodexHeader (splitProlog lines suffix).2 path
          = .ok (eh, restWo, found)) ∧
      R = ((splitProlog lines suffix).1 ++ hdr.map ensureNl ++ restWo).flatten := by
  unfold annotateLines at h
  cases hds : detectCommentStyle suffix with
  | none =>
    rw [hds] at h
    simp at h
  | some style =>
    rw [hds] at h
    simp only at h
    cases hsc : splitCodexHeader (splitProlog lines suffix).2 path with
    | error e =>
      rw [hsc] at h
      simp at h
    | ok trip =>
      obtain ⟨eh, restWo, found⟩ := trip
      rw [hsc] at h
      simp only [Except.ok.injEq, AnnotateResult.done.injEq] at h
      obtain ⟨hc, hR⟩ := h
      exact ⟨_, restWo, renderHeaderLines_length _ _ _, ⟨eh, found, rfl⟩,
        hR.symm⟩

theorem splitProlog_shebang_cookie (l0 l1 : List Char) (rest : List (List Char))
    (suffix : List Char)
    (hsuf : suffix = ".py".data ∨ suffix = ".pyi".data)
    (h0 : shebangLine l0 = true) (h1 : pyCookieLine l1 = true) :
    splitProlog (l0 :: l1 :: rest) suffix =
      (l0 :: l1 ::
        ((stepGoBuild rest).1 ++ (stepRustAttr (stepGoBuild rest).2).1),
       (stepRustAttr (stepGoBuild rest).2).2) := by
  have hx : xmlDeclLine l1 = false := by
    cases l1 with
    | nil => simp [pyCookieLine] at h1
    | cons a t =>
      have ha : a = '#' := by
        have h2 := h1
        simp only [pyCookieLine, Bool.and_eq_true, decide_eq_true_eq] at h2
        exact h2.1
      subst ha
      have hpw : pyWs '#' = false := by decide
      show strStarts (lstripC ('#' :: t)) ("<?xml".data) = false
      have hd : lstripC ('#' :: t) = '#' :: t := by
        simp [lstripC, List.dropWhile_cons, hpw]
      rw [hd]
      rfl
  have e0 : stepShebang (l0 :: l1 :: rest) = ([l0], l1 :: rest) := by
    simp [stepShebang, h0]
  have e1 : stepXml (l1 :: rest) = ([], l1 :: rest) := by
    simp [stepXml, hx]
  have e2 : stepCookie suffix (l1 :: rest) = ([l1], rest) := by
    rcases hsuf with hs | hs <;> subst hs <;> simp [stepCookie, h1]
  simp [splitProlog, e0, e1, e2]

/-- C10: whenever `annotate_file` produces content (rather than skipping or
failing), that content is exactly the prolog lines, then exactly the 20
rendered header lines, then the remaining body lines — every line of the
body after the prolog and after any located prior 20-line header is kept
byte-for-byte in its original order. -/
theorem c10_body_frame (path relpath suffix purpose indexHint : List Char)
    (maxWidth : Nat) (refresh : Bool) (today : List Char)
    (typeIndex : Option TypeIndex) (lines : List (List Char))
    (c : Bool) (R : List Char)
    (h : annotateLines path relpath suffix purpose indexHint maxWidth refresh
      today typeIndex lines = .ok (.done c R)) :
    ∃ hdr : List (List Char), hdr.length = headerLinesN ∧
      ∃ eh restWo found,
        splitCodexHeader (splitProlog lines suffix).2 path
          = .ok (eh, restWo, found) ∧
        R = ((splitProlog lines suffix).1 ++ hdr.map ensureNl ++
          restWo).flatten := by
  obtain ⟨hdr, restWo, hlen, ⟨eh, found, hsc⟩, hR⟩ :=
    annotateLines_shape path relpath suffix purpose indexHint maxWidth refresh
      today typeIndex lines c R h
  exact ⟨hdr, hlen, eh, restWo, found, hsc, hR⟩

/-- Witness for C10 at a concrete one-line Python file. -/
theorem c10_witness :
    ∃ hdr : List (List Char), hdr.length = headerLinesN ∧
      ∃ eh restWo found,
        splitCodexHeader
            (splitProlog (pySplitlines c10input) (".py".data)).2 ("y.py".data)
          = .ok (eh, restWo, found) ∧
        c10out = ((splitProlog (pySplitlines c10input) (".py".data)).1 ++
          hdr.map ensureNl ++ restWo).flatten :=
  c10_body_frame ("y.py".data) ("y.py".data) (".py".data) [] [] 120 false
    ("2026-10-12".data) none (pySplitlines c10input) true c10out (by rfl)

/-- C8 (amended): for Python files (`.py`/`.pyi`), a first shebang line and
a second encoding-cookie line both remain the first two lines of the
annotated output, byte-for-byte.  (For other supported suffixes the cookie
step of `_split_prolog` is skipped, so the cookie line is pushed below the
header — see the counterexample.) -/
theorem c8_prolog_roundtrip (path relpath suffix purpose indexHint : List Char)
    (maxWidth : Nat) (refresh : Bool) (today : List Char)
    (typeIndex : Option TypeIndex)
    (l0 l1 : List Char) (rest : List (List Char))
    (c : Bool) (R : List Char)
    (hsuf : suffix = ".py".data ∨ suffix = ".pyi".data)
    (h0 : shebangLine l0 = true)
    (h1 : pyCookieLine l1 = true)
    (h : annotateLines path relpath suffix purpose indexHint maxWidth refresh
      today typeIndex (l0 :: l1 :: rest) = .ok (.done c R)) :
    ∃ s, R = l0 ++ l1 ++ s := by
  obtain ⟨hdr, restWo, hlen, ⟨eh, found, hsc⟩, hR⟩ :=
    annotateLines_shape path relpath suffix purpose indexHint maxWidth refresh
      today typeIndex (l0 :: l1 :: rest) c R h
  rw [splitProlog_shebang_cookie l0 l1 rest suffix hsuf h0 h1] at hR
  refine ⟨((((stepGoBuild rest).1 ++ (stepRustAttr (stepGoBuild rest).2).1)
    ++ hdr.map ensureNl ++ restWo)).flatten, ?_⟩
  rw [hR]
  simp [List.cons_append, List.flatten_cons, List.append_assoc]

/-- C8 counterexample: on a Ruby file whose first line is a shebang and
whose second line is an encoding cookie, the annotated output's second
line is the header marker line, not the cookie — the cookie line does not
stay in place for every supported extension. -/
theorem c8_counterexample :
    shebangLine (("#!/usr/bin/env ruby\n").data) = true ∧
    pyCookieLine (("# coding: utf-8\n").data) = true ∧
    pySplitlines c8input =
      [("#!/usr/bin/env ruby\n").data, ("# coding: utf-8\n").data,
       ("x\n").data] ∧
    annotateRaw ("e.rb".data) ("e.rb".data) (".rb".data) [] [] 120 false
        ("2026-10-12".data) none c8input = .ok (.done true c8out) ∧
    (pySplitlines c8out)[1]? =
      some (("# @codex-header: v1 | 20 lines | keep updated\n").data) ∧
    (pySplitlines c8out)[1]? ≠ some (("# coding: utf-8\n").data) := by
  refine ⟨by decide, by decide, by rfl, by rfl, by rfl, by decide⟩

/-- Witness for C8 at a concrete Python file with shebang and cookie. -/
theorem c8_witness :
    ∃ s, c8pyout = ("#!/usr/bin/env python\n").data ++
      ("# coding: utf-8\n").data ++ s :=
  c8_prolog_roundtrip ("w.py".data) ("w.py".data) (".py".data) [] [] 120 false
    ("2026-10-12".data) none (("#!/usr/bin/env python\n").data)
    (("# coding: utf-8\n").data) [("x = 1\n").data] true c8pyout
    (Or.inl rfl) (by decide) (by decide) (by rfl)

theorem checkerStep_cases (raw suffix style : List Char)
    (acc : List (List Char)) (line : List Char) :
    checkerStep raw suffix style acc line = acc ∨
    (checkerStep raw suffix style acc line
        = acc ++ [stripCommentPre line style] ∧
      ((strStarts (stripCommentPre line style) ("Key funcs:".data) = true ∧
        hasFunctionsIn raw suffix = true) ∨
       (strStarts (stripCommentPre line style) ("Entrypoints:".data) = true ∧
        hasEntrypointIn raw suffix = true))) := by
  unfold checkerStep
  simp only []
  cases hfs : checkerAutoFields.findSome?
      (fun field => if strStarts (stripCommentPre line style) field
        then some field else none) with
  | none => exact Or.inl rfl
  | some field =>
    obtain ⟨a, ha, hfa⟩ := List.exists_of_findSome?_eq_some hfs
    have hsa : strStarts (stripCommentPre line style) a = true ∧ field = a := by
      by_cases hs : strStarts (stripCommentPre line style) a = true
      · rw [if_pos hs] at hfa
        exact ⟨hs, (Option.some.injEq a field).mp hfa |>.symm⟩
      · rw [if_neg hs] at hfa
        exact absurd hfa (by simp)
    obtain ⟨hs, hfield⟩ := hsa
    subst hfield
    have hmem : field = ("Key funcs:".data) ∨ field = ("Entrypoints:".data)
        := by
      simpa [checkerAutoFields] using ha
    rcases hmem with h | h
    · subst h
      simp only []
      rw [if_pos (trivial : True)]
      split
      · by_cases hfn : hasFunctionsIn raw suffix = true
        · rw [if_pos hfn]
          exact Or.inr ⟨rfl, Or.inl ⟨hs, hfn⟩⟩
        · rw [if_neg hfn]
          exact Or.inl rfl
      · exact Or.inl rfl
    · subst h
      simp only []
      rw [if_neg (by decide : ¬(("Entrypoints:".data) = ("Key funcs:".data)))]
      rw [if_pos (trivial : True)]
      split
      · by_cases hen : hasEntrypointIn raw suffix = true
        · rw [if_pos hen]
          exact Or.inr ⟨rfl, Or.inr ⟨hs, hen⟩⟩
        · rw [if_neg hen]
          exact Or.inl rfl
      · exact Or.inl rfl

theorem checkerStep_mem (raw suffix style : List Char)
    (acc : List (List Char)) (line j : List Char)
    (hj : j ∈ checkerStep raw suffix style acc line) :
    j ∈ acc ∨
      ((strStarts j ("Key funcs:".data) = true ∧
        hasFunctionsIn raw suffix = true) ∨
       (strStarts j ("Entrypoints:".data) = true ∧
        hasEntrypointIn raw suffix = true)) := by
  rcases checkerStep_cases raw suffix style acc line with h | ⟨h, hp⟩
  · rw [h] at hj
    exact Or.inl hj
  · rw [h] at hj
    rcases List.mem_append.mp hj with h2 | h2
    · exact Or.inl h2
    · have hjc := List.mem_singleton.mp h2
      subst hjc
      exact Or.inr hp

theorem checkerFold_mem (raw suffix style : List Char)
    (lines : List (List Char)) (acc : List (List Char)) (j : List Char)
    (hj : j ∈ lines.foldl (checkerStep raw suffix style) acc) :
    j ∈ acc ∨
      ((strStarts j ("Key funcs:".data) = true ∧
        hasFunctionsIn raw suffix = true) ∨
       (strStarts j ("Entrypoints:".data) = true ∧
        hasEntrypointIn raw suffix = true)) := by
  induction lines generalizing acc with
  | nil => exact Or.inl (by simpa using hj)
  | cons l t ih =>
    rw [List.foldl_cons] at hj
    rcases ih (checkerStep raw suffix style acc l) hj with h | h
    · exact checkerStep_mem raw suffix style acc l j h
    · exact Or.inr h

/-- C9 (amended): for every located header spanning the full 20-line
window, the completeness checker flags only the auto-populated fields
"Key funcs:" and "Entrypoints:", and only when its independent scan finds
matching declarations in the file; the exit status is nonzero exactly when
some file is flagged.  (A located header shorter than 20 lines is flagged
with the generic issue "No valid header found" instead — see the
counterexample.) -/
theorem c9_checker_flags :
    (∀ (headerLines : List (List Char)) (raw suffix : List Char),
      headerLinesN ≤ headerLines.length →
      ∀ issue ∈ (checkHeaderIncomplete headerLines raw suffix).2,
        (strStarts issue ("Key funcs:".data) = true ∧
          hasFunctionsIn raw suffix = true) ∨
        (strStarts issue ("Entrypoints:".data) = true ∧
          hasEntrypointIn raw suffix = true)) ∧
    (∀ files : List (List Char × List Char),
      checkerExitCode files ≠ 0 ↔
        ∃ f ∈ files, ∃ issues, checkFile f.1 f.2 = some (true, issues)) := by
  constructor
  · intro headerLines raw suffix hlen issue hmem
    have hne : headerLines.isEmpty = false := by
      cases headerLines with
      | nil => simp [headerLinesN] at hlen
      | cons a t => rfl
    have hcond : ¬(headerLines.isEmpty = true ∨
        headerLines.length < headerLinesN) := by
      rintro (hc | hc)
      · rw [hne] at hc
        exact Bool.false_ne_true hc
      · omega
    unfold checkHeaderIncomplete at hmem
    rw [if_neg hcond] at hmem
    simp only at hmem
    rcases checkerFold_mem raw suffix
        (checkerStyle (headerLines.headD [])) headerLines [] issue hmem with
      h | h
    · simp at h
    · exact h
  · intro files
    unfold checkerExitCode
    by_cases h : files.any (fun f =>
        match checkFile f.1 f.2 with
        | some r => r.1
        | none => false) = true
    · rw [if_pos h]
      constructor
      · intro _
        rcases List.any_eq_true.mp h with ⟨f, hf, hp⟩
        refine ⟨f, hf, ?_⟩
        rcases hcf : checkFile f.1 f.2 with _ | ⟨b, issues⟩
        · rw [hcf] at hp
          simp at hp
        · rw [hcf] at hp
          simp only at hp
          exact ⟨issues, by rw [hp]⟩
      · intro _
        exact one_ne_zero
    · rw [if_neg h]
      constructor
      · intro h0
        exact absurd rfl h0
      · rintro ⟨f, hf, issues, hcf⟩
        exfalso
        apply h
        refine List.any_eq_true.mpr ⟨f, hf, ?_⟩
        rw [hcf]

/-- C9 counterexample: a file whose located header is shorter than the
20-line window is flagged with the generic issue "No valid header found",
which is not one of the two auto-populated fields — yet it still drives
the exit status to 1. -/
theorem c9_counterexample :
    checkFile c9short (".py".data) =
      some (true, [("No valid header found").data]) ∧
    strStarts (("No valid header found").data) (("Key funcs:").data)
      = false ∧
    strStarts (("No valid header found").data) (("Entrypoints:").data)
      = false ∧
    checkerExitCode [(c9short, (".py".data))] = 1 := by
  refine ⟨by rfl, by decide, by decide, by rfl⟩

/-- Witness for C9 at a concrete Python file whose full header leaves both
auto fields unfilled over a body with a function and an entrypoint. -/
theorem c9_witness :
    (strStarts (("Key funcs: TODO").data) (("Key funcs:").data) = true ∧
      hasFunctionsIn c9input (".py".data) = true) ∨
    (strStarts (("Key funcs: TODO").data) (("Entrypoints:").data) = true ∧
      hasEntrypointIn c9input (".py".data) = true) :=
  c9_checker_flags.1 (extractHeaderLines (pySplitlinesNoKeep c9input))
    c9input (".py".data) (by decide) (("Key funcs: TODO").data) (by decide)

/-- Witness for C3 at the manual field "Tests" with prior value
"covered". -/
theorem c3_witness :
    (reconcileHeaderFields ("z.py".data)
        (parseExistingHeaderFields [("# Tests: covered\n".data)]) []
        [] [] false ("2026-10-12".data) [] [] [] [])[16]?
      = some (("Tests".data) ++ (": ".data) ++ ("covered".data)) ∧
    (reconcileHeaderFields ("z.py".data)
        (parseExistingHeaderFields [("# Tests: covered\n".data)]) []
        [] [] true ("2026-10-12".data) [] [] [] [])[16]?
      = some (("Tests".data) ++ (": ".data) ++ ("TODO".data)) :=
  c3_manual_field_policy [("# Tests: covered\n".data)] ("z.py".data) []
    ("2026-10-12".data) [] [] [] [] ("Tests".data) 16 ("covered".data)
    (by decide) (by decide) (by decide)

end Annot
